import Mathlib

/-
Verification of the archetype storage core of the `shard_refactor`
entity-component registry against its specification.

The development is a shallow embedding: raw column memory becomes flat
byte buffers (`List Nat`, one buffer per column; a null column pointer is
the empty buffer), machine integers become `Nat` / `Int`, and code that
can panic or hit undefined behaviour returns `Except Unit` with
`Except.error ()` marking the panic.  Operations are translated from
`src/archetype/data_access.rs` and `src/archetype_registry/mod.rs`; the
few collaborating definitions whose files are not part of the sources
(`constants.rs`, `archetype_descriptor.rs`, `component_descriptor.rs`,
`archetype/metadata.rs`, `archetype/mod.rs`) are modelled from the spec
and marked as such in their doc comments.
-/

namespace ShardECS

/-- Modelled from the spec: `constants.rs` is not under `src/`; spec section 6 fixes `MAX_COMPONENTS_PER_ENTITY = 14`. -/
def MAX_COMPONENTS_PER_ENTITY : Nat := 14

/-- Modelled from the spec: `constants.rs` is not under `src/`; spec section 6 fixes `MAX_ARCHETYPE_COUNT = 65535`. -/
def MAX_ARCHETYPE_COUNT : Nat := 65535

/-- Modelled from the spec: `constants.rs` is not under `src/`; the value is implementation-defined and must fit in `u32`, we take `u32::MAX`. -/
def MAX_ENTITIES_PER_ARCHETYPE : Nat := 4294967295

/-- Modelled from the spec: `constants.rs` is not under `src/`; spec section 6 gives the typical default 64 (the registry passes this constant to `Archetype::with_capacity`). -/
def DEFAULT_ARCHETYPE_ALLOCATION_SIZE : Nat := 64

/-- Bytes of the half-open region starting `n` bytes long at offset `off` of a flat buffer, as read through a raw pointer. -/
def bytesAt {α : Type} (l : List α) (off n : Nat) : List α := (l.drop off).take n

/-- Semantics of `core::ptr::copy_nonoverlapping(src, dst + off, src.length)` on a flat byte buffer. -/
def writeBytes (dst : List Nat) (off : Nat) (src : List Nat) : List Nat :=
  dst.take off ++ src ++ dst.drop (off + src.length)

/-- Semantics of `realloc` of a buffer to a new length: the common prefix survives, fresh entries are unspecified (modelled by the default). -/
def reallocList {α : Type} (l : List α) (n : Nat) (d : α) : List α :=
  if l.length ≤ n then l ++ List.replicate (n - l.length) d else l.take n

/-- Modelled from the spec: `component_descriptor.rs` is not under `src/`. A component type carries a stable 16-bit id, its byte size, and a destructor `fns.drop_handler` acting in place on one row's bytes (it receives the row's `size` bytes and yields the region's bytes after dropping). Alignment and the optional clone handler play no role in the verified operations and are omitted. -/
structure ComponentDescriptor where
  component_type_id : Nat
  size : Nat
  drop_handler : List Nat → List Nat

instance : Inhabited ComponentDescriptor := ⟨⟨0, 0, fun b => b⟩⟩

/-- Modelled from the spec: `archetype/metadata.rs` is not under `src/`. Per-row bookkeeping owned by the archetype, carrying the stable entity handle living in that row. -/
structure EntityMetadata where
  entity : Nat
deriving DecidableEq

instance : Inhabited EntityMetadata := ⟨⟨0⟩⟩

/-- Modelled from the spec: `archetype_descriptor.rs` is not under `src/`. An ordered sequence of component descriptors; all derived data (`len`, `archetype_id`, validity) are pure functions of it. -/
structure ArchetypeDescriptor where
  components : List ComponentDescriptor

/-- Component type ids of a component list, in storage order. -/
def compIds (l : List ComponentDescriptor) : List Nat := l.map (fun c => c.component_type_id)

/-- FNV-1a 64-bit fold over a byte sequence. -/
def fnv1a64 (bytes : List Nat) : Nat :=
  bytes.foldl (fun h b => ((h ^^^ (b % 256)) * 1099511628211) % 18446744073709551616)
    14695981039346656037

/-- Little-endian byte serialisation of a sequence of 16-bit ids. -/
def idBytesLE (ids : List Nat) : List Nat :=
  ids.foldr (fun i acc => (i % 256) :: ((i / 256) % 256) :: acc) []

/-- Modelled from the spec: the archetype id is the FNV-1a-64 fold over the little-endian bytes of the sorted id sequence. -/
def ArchetypeDescriptor.archetype_id (d : ArchetypeDescriptor) : Nat :=
  fnv1a64 (idBytesLE (compIds d.components))

/-- Number of components of the descriptor. -/
def ArchetypeDescriptor.len (d : ArchetypeDescriptor) : Nat := d.components.length

/-- Decides that a sequence of ids is sorted strictly ascending. -/
def idsStrictSorted : List Nat → Bool
  | [] => true
  | [_] => true
  | a :: b :: t => decide (a < b) && idsStrictSorted (b :: t)

/-- Modelled from the spec: a descriptor is valid when it is non-empty, has at most `MAX_COMPONENTS_PER_ENTITY` components, and its ids are sorted strictly ascending (hence duplicate-free). -/
def ArchetypeDescriptor.is_valid (d : ArchetypeDescriptor) : Bool :=
  decide (1 ≤ d.components.length) &&
  decide (d.components.length ≤ MAX_COMPONENTS_PER_ENTITY) &&
  idsStrictSorted (compIds d.components)

/-- Insertion into an id-sorted component list at the sorted position. -/
def insertSorted : List ComponentDescriptor → ComponentDescriptor → List ComponentDescriptor
  | [], c => [c]
  | x :: t, c =>
    if c.component_type_id < x.component_type_id then c :: x :: t else x :: insertSorted t c

/-- Modelled from the spec: `add_component` returns a new descriptor with the component inserted in sorted position, failing if the id is already present or the length would exceed the maximum. -/
def ArchetypeDescriptor.add_component (d : ArchetypeDescriptor) (c : ComponentDescriptor) :
    Option ArchetypeDescriptor :=
  if MAX_COMPONENTS_PER_ENTITY < d.components.length + 1 then none
  else if (compIds d.components).contains c.component_type_id then none
  else some ⟨insertSorted d.components c⟩

/-- Value-level view of one `ComponentGroup` instance: `perm` is the group's compile-time `unsorted_to_sorted` permutation (its `ComponentGroupDescriptor` lives in `component_group_descriptor.rs`, not under `src/`, and is modelled from the spec as a permutation of the caller positions), and `values` are the caller-declaration-order component byte values. -/
structure GroupValue where
  perm : List Nat
  values : List (List Nat)

/-- Embedding of `ComponentGroup::as_sorted_pointers` (component_group.rs): starting from an array of `MAX_COMPONENTS_PER_ENTITY` null pointers, slot `unsorted_to_sorted(i)` receives caller component `i`'s bytes. -/
def GroupValue.as_sorted_pointers (g : GroupValue) : List (List Nat) :=
  (g.perm.zip g.values).foldl (fun acc pv => acc.set pv.1 pv.2)
    (List.replicate MAX_COMPONENTS_PER_ENTITY [])

/-- Columnar storage of one archetype. The struct itself is declared in `archetype/mod.rs`, which is not under `src/`; the fields are modelled from the spec (section 3), with each raw column pointer replaced by the flat byte buffer it addresses (a null column pointer is the empty buffer). All operations on it are translated from `src/archetype/data_access.rs`. -/
structure Archetype where
  descriptor : ArchetypeDescriptor
  columns : List (List Nat)
  entity_metadata : List EntityMetadata
  entity_count : Nat
  capacity : Nat
  first_shard_index : Nat
  last_shard_index : Nat

/-- Component descriptor of column `i`. -/
def Archetype.comp (a : Archetype) (i : Nat) : ComponentDescriptor :=
  a.descriptor.components.getD i default

/-- Byte buffer of column `i`. -/
def Archetype.col (a : Archetype) (i : Nat) : List Nat := a.columns.getD i []

/-- Bytes of row `row` of column `i`. -/
def Archetype.rowBytes (a : Archetype) (i row : Nat) : List Nat :=
  bytesAt (a.col i) ((a.comp i).size * row) (a.comp i).size

/-- Pointwise update of the first `n` columns, as done by the loops over `self.pointers[0..self.descriptor.len()]`. -/
def updateCols (cols : List (List Nat)) (n : Nat) (f : Nat → List Nat → List Nat) :
    List (List Nat) :=
  (List.range cols.length).map (fun i => if i < n then f i (cols.getD i []) else cols.getD i [])

/-- Allocated well-formed archetype state (spec section 3): one column buffer per component, each of exactly `capacity * size` bytes, metadata allocated in lockstep with the columns, no more live rows than capacity, and positive component sizes (a zero-size component would make the allocation empty, which the model uses for a null pointer). -/
def Archetype.wf (a : Archetype) : Prop :=
  a.columns.length = a.descriptor.components.length ∧
  a.entity_metadata.length = a.capacity ∧
  a.entity_count ≤ a.capacity ∧
  (∀ i, i < a.descriptor.components.length →
    (a.columns.getD i []).length = a.capacity * (a.descriptor.components.getD i default).size) ∧
  (∀ i, i < a.descriptor.components.length →
    1 ≤ (a.descriptor.components.getD i default).size)

/-- Embedding of `Archetype::swap_entities` (data_access.rs 276-284): per column, `swap_nonoverlapping` of the two rows' byte regions, then a swap of the two metadata slots. -/
def Archetype.swap_entities (a : Archetype) (first second : Nat) : Archetype :=
  { a with
    columns := updateCols a.columns a.descriptor.components.length (fun i c =>
      writeBytes
        (writeBytes c ((a.comp i).size * first) (bytesAt c ((a.comp i).size * second) (a.comp i).size))
        ((a.comp i).size * second) (bytesAt c ((a.comp i).size * first) (a.comp i).size)),
    entity_metadata :=
      (a.entity_metadata.set first (a.entity_metadata.getD second default)).set second
        (a.entity_metadata.getD first default) }

/-- Embedding of `Archetype::drop_entity` (data_access.rs 289-296): each column's drop handler runs in place on the row's bytes. -/
def Archetype.drop_entity (a : Archetype) (index : Nat) : Archetype :=
  { a with
    columns := updateCols a.columns a.descriptor.components.length (fun i c =>
      writeBytes c ((a.comp i).size * index)
        ((a.comp i).drop_handler (bytesAt c ((a.comp i).size * index) (a.comp i).size))) }

/-- Embedding of `Archetype::swap_drop_unchecked` (data_access.rs 229-242). -/
def Archetype.swap_drop_unchecked (a : Archetype) (index : Nat) : Archetype × Bool :=
  if index = a.entity_count - 1 then
    let a1 := a.drop_entity index
    ({ a1 with entity_count := a1.entity_count - 1 }, false)
  else
    let a1 := a.swap_entities index (a.entity_count - 1)
    let a2 := a1.drop_entity (a1.entity_count - 1)
    ({ a2 with entity_count := a2.entity_count - 1 }, true)

/-- Embedding of `Archetype::read_components_exact_unchecked` (data_access.rs 310-316) composed with `offset_sorted_pointers_unchecked` (393-408): the trait method `read_from_sorted_pointers` is not under `src/` and is modelled from the spec, which has caller position `j` move its component's bytes out through sorted pointer `perm j` (the inverse permutation applied to the sorted pointer array). -/
def Archetype.read_components_exact_unchecked (a : Archetype) (perm : List Nat) (index : Nat) :
    List (List Nat) :=
  perm.map (fun p => a.rowBytes p index)

/-- Embedding of `Archetype::swap_remove_unchecked` (data_access.rs 253-269). -/
def Archetype.swap_remove_unchecked (a : Archetype) (perm : List Nat) (index : Nat) :
    Archetype × List (List Nat) × Bool :=
  if index = a.entity_count - 1 then
    ({ a with entity_count := a.entity_count - 1 },
      a.read_components_exact_unchecked perm index, false)
  else
    let a1 := a.swap_entities index (a.entity_count - 1)
    ({ a1 with entity_count := a1.entity_count - 1 },
      a1.read_components_exact_unchecked perm (a1.entity_count - 1), true)

/-- Embedding of `Archetype::write_entity_unchecked` (data_access.rs 192-220): the group's sorted pointer array is built, column `i` (for every `i < G::DESCRIPTOR.len()`) receives the group's sorted component `i`'s bytes at row `index`, and the metadata slot at `index` is overwritten. `gcomps` stands for `G::DESCRIPTOR.archetype().components()`. -/
def Archetype.write_entity_unchecked (a : Archetype) (index : Nat) (m : EntityMetadata)
    (gcomps : List ComponentDescriptor) (g : GroupValue) : Archetype :=
  let ptrs := g.as_sorted_pointers
  { a with
    columns := updateCols a.columns gcomps.length (fun i c =>
      writeBytes c ((gcomps.getD i default).size * index)
        ((ptrs.getD i []).take (gcomps.getD i default).size)),
    entity_metadata := a.entity_metadata.set index m }

/-- Loop of `Archetype::dealloc` (data_access.rs 368-391): columns are freed in index order; on the first null column pointer the source returns early (a `return`, not a `continue`), reported here as `false`. -/
def deallocLoop : List (List Nat) → Nat → Nat → List (List Nat) × Bool
  | cols, _, 0 => (cols, true)
  | cols, i, k + 1 =>
    if cols.getD i [] = [] then (cols, false)
    else deallocLoop (cols.set i []) (i + 1) k

/-- Embedding of `Archetype::dealloc` (data_access.rs 368-391): free the column allocations in order, and only when no early return happened also free the metadata and zero the capacity. -/
def Archetype.dealloc (a : Archetype) : Archetype :=
  let r := deallocLoop a.columns 0 a.descriptor.components.length
  if r.2 then { a with columns := r.1, entity_metadata := [], capacity := 0 }
  else { a with columns := r.1 }

/-- Embedding of `Archetype::resize_capacity` (data_access.rs 327-363). -/
def Archetype.resize_capacity (a : Archetype) (change_in_entity_count : Int) : Archetype :=
  let new_capacity : Int := (a.capacity : Int) + change_in_entity_count
  if new_capacity ≤ 0 ∨ (MAX_ENTITIES_PER_ARCHETYPE : Int) ≤ new_capacity then a.dealloc
  else
    let nc := new_capacity.toNat
    { a with
      entity_metadata := reallocList a.entity_metadata nc default,
      columns := updateCols a.columns a.descriptor.components.length (fun i c =>
        reallocList c ((a.comp i).size * nc) 0),
      capacity := nc }

/-- Embedding of `Archetype::push_entity_unchecked` (data_access.rs 157-181). -/
def Archetype.push_entity_unchecked (a : Archetype) (m : EntityMetadata)
    (gcomps : List ComponentDescriptor) (g : GroupValue) : Archetype × Nat :=
  let a1 :=
    if a.entity_count = a.capacity then
      a.resize_capacity
        (if a.capacity = 0 then (DEFAULT_ARCHETYPE_ALLOCATION_SIZE : Int) else (a.capacity : Int))
    else a
  let entity_index := a1.entity_count
  let a2 := a1.write_entity_unchecked entity_index m gcomps g
  ({ a2 with entity_count := a2.entity_count + 1 }, entity_index)

/-- Embedding of `Archetype::copy_common_components_between_archetypes_unchecked` (data_access.rs 411-433): for every source/destination column pair with equal type ids, one row's worth (the source component's size) of bytes is copied from the source row to the destination row. -/
def Archetype.copy_common_components_between_archetypes_unchecked (source : Archetype)
    (source_index : Nat) (destination : Archetype) (destination_index : Nat) : Archetype :=
  { destination with
    columns :=
      source.descriptor.components.enum.foldl (fun cols sp =>
        destination.descriptor.components.enum.foldl (fun cols2 dp =>
          if sp.2.component_type_id = dp.2.component_type_id then
            cols2.set dp.1 (writeBytes (cols2.getD dp.1 []) (dp.2.size * destination_index)
              (bytesAt (source.columns.getD sp.1 []) (sp.2.size * source_index) sp.2.size))
          else cols2) cols) destination.columns }

/-- Embedding of the scan of `Archetype::get_fuzzy_pointers_unchecked` (data_access.rs 443-456): starting at `check_index = start`, examine `fuel` successive positions of the archetype's component list and yield the matching column's pointer. -/
def searchFrom (acomps : List ComponentDescriptor) (aptrs : List Nat) (tid : Nat) :
    Nat → Nat → Option Nat
  | _, 0 => none
  | start, fuel + 1 =>
    if (acomps.getD start default).component_type_id = tid then some (aptrs.getD start 0)
    else searchFrom acomps aptrs tid (start + 1) fuel

/-- Embedding of `Archetype::get_fuzzy_pointers_unchecked` (data_access.rs 439-459): slot `index` of a null-initialised pointer array receives the column pointer of the archetype column matching the group's sorted component `index`, searched from position `index` to the end of the archetype's (`acomps`) component list; `aptrs` are the archetype's column pointers, abstract addresses here. -/
def get_fuzzy_pointers_unchecked (gcomps acomps : List ComponentDescriptor)
    (aptrs : List Nat) : List Nat :=
  gcomps.enum.foldl (fun ptrs p =>
    match searchFrom acomps aptrs p.2.component_type_id p.1 (acomps.length - p.1) with
    | some q => ptrs.set p.1 q
    | none => ptrs) (List.replicate MAX_COMPONENTS_PER_ENTITY 0)

/-- Embedding of `Archetype::get_fuzzy_slices_unchecked` (data_access.rs 102-108) with `ComponentGroup::slice_unchecked` (component_group.rs): caller position `j` receives the slice based at sorted fuzzy pointer `perm j` with length `entity_count`. A slice is modelled as its base pointer paired with its length. -/
def get_fuzzy_slices_unchecked (gcomps acomps : List ComponentDescriptor) (aptrs : List Nat)
    (perm : List Nat) (entity_count : Nat) : List (Nat × Nat) :=
  let ptrs := get_fuzzy_pointers_unchecked gcomps acomps aptrs
  perm.map (fun p => (ptrs.getD p 0, entity_count))

/-- Modelled from the spec: `index_of(id)` of `archetype_descriptor.rs` (not under `src/`) returns the column index of the component with the given id, found by binary search; on the sorted duplicate-free component list this is the unique matching index, computed here as the first match. -/
def index_of_comps (comps : List ComponentDescriptor) (tid : Nat) : Nat :=
  comps.findIdx (fun c => c.component_type_id == tid)

/-- Modelled from the spec: `ArchetypeDescriptor::index_of` on the descriptor's component list. -/
def ArchetypeDescriptor.index_of (d : ArchetypeDescriptor) (tid : Nat) : Nat :=
  index_of_comps d.components tid

/-- Embedding of `SortedArchetypeKey` (archetype_registry/sorted_archetype_key.rs, reconstructed from its uses in mod.rs: an archetype id paired with the `u16` index into `archetypes`). -/
structure SortedArchetypeKey where
  id : Nat
  archetype_index : Nat
deriving DecidableEq

instance : Inhabited SortedArchetypeKey := ⟨⟨0, 0⟩⟩

/-- Embedding of `ArchetypeRegistry` (archetype_registry/mod.rs 20-26). -/
structure ArchetypeRegistry where
  sorted_mappings : List (List SortedArchetypeKey)
  archetypes : List Archetype

/-- Embedding of `Default for ArchetypeRegistry` (mod.rs 28-50): an array of `MAX_COMPONENTS_PER_ENTITY` empty arity buckets and no archetypes (capacity hints of the vectors are irrelevant here). -/
def ArchetypeRegistry.emptyRegistry : ArchetypeRegistry :=
  { sorted_mappings := List.replicate MAX_COMPONENTS_PER_ENTITY [], archetypes := [] }

/-- Behaviour of `slice::binary_search_by_key(&id, |e| e.id)` on a bucket kept sorted by `id` without duplicate keys: `Except.ok` carries the index of the match, `Except.error` the insertion index (the number of keys below `id`). On such buckets this agrees with the binary search run by the source. -/
def binary_search_by_id (bucket : List SortedArchetypeKey) (id : Nat) : Except Nat Nat :=
  match bucket.findIdx? (fun k => k.id == id) with
  | some i => Except.ok i
  | none => Except.error (bucket.countP (fun k => decide (k.id < id)))

/-- Modelled from the spec: `Archetype::with_capacity` lives in `archetype/mod.rs`, not under `src/`. It builds a fresh archetype for the descriptor with `capacity` rows of column and metadata storage and no live rows. -/
def Archetype.with_capacity (d : ArchetypeDescriptor) (cap : Nat) : Archetype :=
  { descriptor := d,
    columns := d.components.map (fun c => List.replicate (cap * c.size) 0),
    entity_metadata := List.replicate cap default,
    entity_count := 0,
    capacity := cap,
    first_shard_index := 0,
    last_shard_index := 0 }

/-- Embedding of `ArchetypeRegistry::find_archetype` (mod.rs 52-70). Panicking array indexing of the source (`self.sorted_mappings[len]`, `self.archetypes[..]`) is modelled by `Except.error ()`; the `Option` mirrors the source's, with the returned reference `&self.archetypes[i]` represented by its index `i`. -/
def ArchetypeRegistry.find_archetype (r : ArchetypeRegistry) (d : ArchetypeDescriptor) :
    Except Unit (Option Nat) :=
  let len := d.components.length
  if MAX_COMPONENTS_PER_ENTITY < len ∨ d.is_valid = false then Except.ok none
  else if hlen : len < r.sorted_mappings.length then
    match binary_search_by_id (r.sorted_mappings.get ⟨len, hlen⟩) d.archetype_id with
    | Except.ok found_index =>
      let key := (r.sorted_mappings.get ⟨len, hlen⟩).getD found_index default
      if key.archetype_index < r.archetypes.length then Except.ok (some key.archetype_index)
      else Except.error ()
    | Except.error _ => Except.ok none
  else Except.error ()

/-- Embedding of `ArchetypeRegistry::find_or_create_archetype` (mod.rs 127-164). A `some` result carries the updated registry and the `u16` archetype index the source returns alongside the mutable reference. -/
def ArchetypeRegistry.find_or_create_archetype (r : ArchetypeRegistry)
    (d : ArchetypeDescriptor) : Except Unit (Option (ArchetypeRegistry × Nat)) :=
  let len := d.components.length
  if MAX_COMPONENTS_PER_ENTITY < len ∨ d.is_valid = false then Except.ok none
  else if hlen : len < r.sorted_mappings.length then
    match binary_search_by_id (r.sorted_mappings.get ⟨len, hlen⟩) d.archetype_id with
    | Except.ok found_index =>
      let key := (r.sorted_mappings.get ⟨len, hlen⟩).getD found_index default
      if key.archetype_index < r.archetypes.length then Except.ok (some (r, key.archetype_index))
      else Except.error ()
    | Except.error insertion_index =>
      if MAX_ARCHETYPE_COUNT ≤ r.archetypes.length then Except.ok none
      else
        let archetype := Archetype.with_capacity d DEFAULT_ARCHETYPE_ALLOCATION_SIZE
        let key : SortedArchetypeKey := ⟨d.archetype_id, r.archetypes.length⟩
        Except.ok (some
          ({ sorted_mappings :=
               r.sorted_mappings.set len
                 ((r.sorted_mappings.get ⟨len, hlen⟩).insertIdx insertion_index key),
             archetypes := r.archetypes ++ [archetype] },
           r.archetypes.length))
  else Except.error ()

/-- Embedding of `ArchetypeRegistry::find_or_create_archetype_adding_component` (mod.rs 94-125). The source's range check uses `>`, so a source index equal to the length passes it and the following `get_unchecked_mut` reads out of bounds, modelled as `Except.error ()`. A `some` result carries the updated registry and the destination archetype index. -/
def ArchetypeRegistry.find_or_create_archetype_adding_component (r : ArchetypeRegistry)
    (source_archetype_index : Nat) (c : ComponentDescriptor) :
    Except Unit (Option (ArchetypeRegistry × Nat)) :=
  if r.archetypes.length < source_archetype_index then Except.ok none
  else if hs : source_archetype_index < r.archetypes.length then
    match (r.archetypes.get ⟨source_archetype_index, hs⟩).descriptor.add_component c with
    | none => Except.ok none
    | some nd => r.find_or_create_archetype nd
  else Except.error ()

/-- Destructor of a trivially destructible component: leaves the row's bytes unchanged. -/
def trivialDrop : List Nat → List Nat := fun b => b

/-- Concrete 1-byte component with id 1 (the `A = 1 byte tag` of the spec's scenarios). -/
def compA : ComponentDescriptor := ⟨1, 1, trivialDrop⟩

/-- Concrete 4-byte component with id 2 (the `B = 4-byte int` of the spec's scenarios). -/
def compB : ComponentDescriptor := ⟨2, 4, trivialDrop⟩

/-- Concrete 2-byte component with id 3. -/
def compC : ComponentDescriptor := ⟨3, 2, trivialDrop⟩

/-- Concrete 2-byte component whose id 0 precedes every other id used here. -/
def compZ : ComponentDescriptor := ⟨0, 2, trivialDrop⟩

/-- Valid descriptor of the maximal arity `MAX_COMPONENTS_PER_ENTITY`: ids 1 to 14, one byte each. -/
def descFourteen : ArchetypeDescriptor :=
  ⟨(List.range MAX_COMPONENTS_PER_ENTITY).map (fun i => ⟨i + 1, 1, trivialDrop⟩)⟩

/-- Concrete single-column archetype with capacity 1 holding one live row. -/
def archOne : Archetype :=
  { descriptor := ⟨[compA]⟩, columns := [[7]], entity_metadata := [⟨5⟩],
    entity_count := 1, capacity := 1, first_shard_index := 0, last_shard_index := 0 }

/-- Concrete two-column archetype with capacity 2 holding two live rows. -/
def archTwo : Archetype :=
  { descriptor := ⟨[compA, compB]⟩,
    columns := [[10, 20], [1, 2, 3, 4, 5, 6, 7, 8]],
    entity_metadata := [⟨100⟩, ⟨200⟩],
    entity_count := 2, capacity := 2, first_shard_index := 0, last_shard_index := 0 }

/-- Concrete single-column archetype that is full at capacity 2. -/
def archFullTwo : Archetype :=
  { descriptor := ⟨[compA]⟩, columns := [[10, 20]], entity_metadata := [⟨100⟩, ⟨200⟩],
    entity_count := 2, capacity := 2, first_shard_index := 0, last_shard_index := 0 }

/-- Concrete group value matching `archFullTwo`: a single 1-byte component. -/
def groupSingleA : GroupValue := ⟨[0], [[42]]⟩

/-- Concrete group value matching `archTwo` presented in caller order `(B, A)`. -/
def groupBA : GroupValue := ⟨[1, 0], [[9, 9, 9, 9], [7]]⟩

/-- Concrete source archetype for the transition scenario: only component `compA`, one live row with byte value 42. -/
def srcSmall : Archetype :=
  { descriptor := ⟨[compA]⟩, columns := [[42]], entity_metadata := [⟨1⟩],
    entity_count := 1, capacity := 1, first_shard_index := 0, last_shard_index := 0 }

/-- Concrete destination archetype for the transition scenario: components `compA` and `compC`, capacity 2 with one live row of zeroes. -/
def dstSmall : Archetype :=
  { descriptor := ⟨[compA, compC]⟩, columns := [[0, 0], [0, 0, 0, 0]],
    entity_metadata := [⟨0⟩, ⟨0⟩],
    entity_count := 1, capacity := 2, first_shard_index := 0, last_shard_index := 0 }

/-- Concrete destination archetype whose added component `compZ` is its first (lowest-id) column. -/
def dstMin : Archetype :=
  { descriptor := ⟨[compZ, compA]⟩, columns := [[0, 0, 0, 0], [0, 0]],
    entity_metadata := [⟨0⟩, ⟨0⟩],
    entity_count := 1, capacity := 2, first_shard_index := 0, last_shard_index := 0 }

/-- Realloc always yields a buffer of the requested length. -/
theorem reallocList_length {α : Type} (l : List α) (n : Nat) (d : α) :
    (reallocList l n d).length = n := by
  unfold reallocList
  split <;> simp <;> omega

/-- Length of an in-bounds byte region. -/
theorem bytesAt_length {α : Type} (l : List α) (off n : Nat) (h : off + n ≤ l.length) :
    (bytesAt l off n).length = n := by
  unfold bytesAt
  simp
  omega

/-- Pointwise description of a byte region. -/
theorem bytesAt_getD {α : Type} (l : List α) (off n k : Nat) (d : α) :
    (bytesAt l off n).getD k d = if k < n then l.getD (off + k) d else d := by
  unfold bytesAt
  simp only [List.getD_eq_getElem?_getD, List.getElem?_take, List.getElem?_drop]
  split <;> simp

/-- Length is preserved by an in-bounds byte copy. -/
theorem writeBytes_length (dst src : List Nat) (off : Nat)
    (h : off + src.length ≤ dst.length) : (writeBytes dst off src).length = dst.length := by
  unfold writeBytes
  simp
  omega

/-- Pointwise description of an in-bounds byte copy. -/
theorem writeBytes_getD (dst src : List Nat) (off k : Nat)
    (h : off + src.length ≤ dst.length) :
    (writeBytes dst off src).getD k 0 =
      if off ≤ k ∧ k < off + src.length then src.getD (k - off) 0 else dst.getD k 0 := by
  unfold writeBytes
  have hofflen : (List.take off dst).length = off := by simp; omega
  have hl2 : (List.take off dst ++ src).length = off + src.length := by simp; omega
  rw [List.getD_eq_getElem?_getD, List.getElem?_append, hl2]
  rcases Nat.lt_or_ge k (off + src.length) with hk2 | hk2
  · rw [if_pos hk2, List.getElem?_append, hofflen]
    rcases Nat.lt_or_ge k off with hk | hk
    · rw [if_pos hk, List.getElem?_take, if_pos hk,
        if_neg (by omega : ¬ (off ≤ k ∧ k < off + src.length)), List.getD_eq_getElem?_getD]
    · rw [if_neg (by omega), if_pos (by omega : off ≤ k ∧ k < off + src.length),
        List.getD_eq_getElem?_getD]
  · rw [if_neg (by omega), List.getElem?_drop,
      (by omega : off + src.length + (k - (off + src.length)) = k),
      if_neg (by omega : ¬ (off ≤ k ∧ k < off + src.length)), List.getD_eq_getElem?_getD]

/-- Reading back exactly the bytes just copied. -/
theorem bytesAt_writeBytes_self (dst src : List Nat) (off : Nat)
    (h : off + src.length ≤ dst.length) :
    bytesAt (writeBytes dst off src) off src.length = src := by
  have hlen : (bytesAt (writeBytes dst off src) off src.length).length = src.length := by
    rw [bytesAt_length]
    rw [writeBytes_length dst src off h]
    omega
  apply List.ext_getElem hlen
  intro n h1 h2
  have e1 : (bytesAt (writeBytes dst off src) off src.length).getD n 0 = src.getD n 0 := by
    rw [bytesAt_getD, writeBytes_getD dst src off (off + n) h]
    have hn : n < src.length := h2
    rw [if_pos hn, if_pos (by omega : off ≤ off + n ∧ off + n < off + src.length),
      (by omega : off + n - off = n)]
  rw [List.getD_eq_getElem?_getD, List.getD_eq_getElem?_getD] at e1
  rw [List.getElem?_eq_getElem h1, List.getElem?_eq_getElem h2] at e1
  simpa using e1

/-- A byte copy leaves any disjoint region untouched. -/
theorem bytesAt_writeBytes_disjoint (dst src : List Nat) (off off2 n : Nat)
    (h : off + src.length ≤ dst.length)
    (hdis : off2 + n ≤ off ∨ off + src.length ≤ off2) :
    bytesAt (writeBytes dst off src) off2 n = bytesAt dst off2 n := by
  have hwl := writeBytes_length dst src off h
  apply List.ext_getElem
  · unfold bytesAt; simp [hwl]
  intro k h1 h2
  have e1 : (bytesAt (writeBytes dst off src) off2 n).getD k 0 = (bytesAt dst off2 n).getD k 0 := by
    rw [bytesAt_getD, bytesAt_getD]
    have hk : k < n := by
      have := h1
      unfold bytesAt at this
      simp at this
      omega
    rw [writeBytes_getD dst src off (off2 + k) h]
    have : ¬ (off ≤ off2 + k ∧ off2 + k < off + src.length) := by omega
    simp [hk, this]
  rw [List.getD_eq_getElem?_getD, List.getD_eq_getElem?_getD] at e1
  rw [List.getElem?_eq_getElem h1, List.getElem?_eq_getElem h2] at e1
  simpa using e1

/-- Element of a list after `set` at the written index. -/
theorem getD_set_self {α : Type} (l : List α) (i : Nat) (x d : α) (h : i < l.length) :
    (l.set i x).getD i d = x := by
  simp [List.getD_eq_getElem?_getD, List.getElem?_set, h]

/-- Element of a list after `set` at a different index. -/
theorem getD_set_ne {α : Type} (l : List α) (i j : Nat) (x d : α) (h : i ≠ j) :
    (l.set i x).getD j d = l.getD j d := by
  simp [List.getD_eq_getElem?_getD, List.getElem?_set, h]

/-- Lists agreeing in length and pointwise (through `getD`) are equal. -/
theorem eq_of_getD {α : Type} (l1 l2 : List α) (d : α) (hl : l1.length = l2.length)
    (h : ∀ k, k < l1.length → l1.getD k d = l2.getD k d) : l1 = l2 := by
  apply List.ext_getElem hl
  intro n h1 h2
  have e1 := h n h1
  rw [List.getD_eq_getElem?_getD, List.getD_eq_getElem?_getD] at e1
  rw [List.getElem?_eq_getElem h1, List.getElem?_eq_getElem h2] at e1
  simpa using e1

/-- Lengths are preserved by the column-loop update. -/
theorem updateCols_length (cols : List (List Nat)) (n : Nat) (f : Nat → List Nat → List Nat) :
    (updateCols cols n f).length = cols.length := by
  unfold updateCols
  simp

/-- Pointwise description of the column-loop update. -/
theorem updateCols_getD (cols : List (List Nat)) (n : Nat) (f : Nat → List Nat → List Nat)
    (i : Nat) :
    (updateCols cols n f).getD i [] =
      if i < cols.length then (if i < n then f i (cols.getD i []) else cols.getD i [])
      else [] := by
  unfold updateCols
  rcases Nat.lt_or_ge i cols.length with hi | hi
  · rw [List.getD_eq_getElem?_getD]
    rw [List.getElem?_map]
    rw [List.getElem?_range hi]
    simp [hi]
  · have : ¬ i < cols.length := by omega
    rw [List.getD_eq_getElem?_getD]
    rw [List.getElem?_eq_none (by simpa using hi)]
    simp [this]

/-- A fold whose every step preserves position `j` preserves position `j`. -/
theorem foldl_preserve_getD {α β : Type} (ps : List β) (f : List α → β → List α)
    (init : List α) (d : α) (j : Nat)
    (h : ∀ acc p, p ∈ ps → (f acc p).getD j d = acc.getD j d) :
    (ps.foldl f init).getD j d = init.getD j d := by
  induction ps generalizing init with
  | nil => rfl
  | cons p pt ih =>
    rw [List.foldl_cons]
    rw [ih (f init p) (fun acc q hq => h acc q (List.mem_cons_of_mem p hq))]
    exact h init p (List.mem_cons_self p pt)

/-- A fold of `set`s over index-value pairs with duplicate-free indices writes each slot exactly once. -/
theorem foldl_set_zip_getD {α : Type} (ps : List Nat) (vs : List α) (init : List α) (d : α)
    (hnd : ps.Nodup) (hlen : ps.length = vs.length) (j : Nat) (hj : j < ps.length)
    (hb : ps.getD j 0 < init.length) :
    ((ps.zip vs).foldl (fun acc p => acc.set p.1 p.2) init).getD (ps.getD j 0) d =
      vs.getD j d := by
  induction ps generalizing vs init j with
  | nil => simp at hj
  | cons p pt ih =>
    cases vs with
    | nil => simp at hlen
    | cons v vt =>
      rw [List.zip_cons_cons, List.foldl_cons]
      cases j with
      | zero =>
        have hpd : (p :: pt).getD 0 0 = p := rfl
        rw [hpd] at hb ⊢
        rw [foldl_preserve_getD (pt.zip vt) _ (init.set p v) d p ?side]
        · rw [getD_set_self init p v d hb]
          rfl
        case side =>
          intro acc q hq
          obtain ⟨q1, q2⟩ := q
          have hq1 : q1 ∈ pt := (List.of_mem_zip hq).1
          show (acc.set q1 q2).getD p d = acc.getD p d
          exact getD_set_ne acc q1 p q2 d
            (fun hc => (List.nodup_cons.mp hnd).1 (hc ▸ hq1))
      | succ j' =>
        have hpd : (p :: pt).getD (j' + 1) 0 = pt.getD j' 0 := rfl
        rw [hpd] at hb ⊢
        have hvd : (v :: vt).getD (j' + 1) d = vt.getD j' d := rfl
        rw [hvd]
        apply ih vt (init.set p v) ((List.nodup_cons.mp hnd).2)
          (by simpa using hlen) j' (by simpa using hj)
        simpa using hb

/-- Behaviour of the `dealloc` loop when every column in range is allocated: it completes, empties exactly the processed range, and keeps lengths. -/
theorem deallocLoop_spec (cols : List (List Nat)) (i k : Nat)
    (h : ∀ m, m < k → cols.getD (i + m) [] ≠ []) :
    (deallocLoop cols i k).2 = true ∧
    (deallocLoop cols i k).1.length = cols.length ∧
    (∀ j, (deallocLoop cols i k).1.getD j [] =
      if i ≤ j ∧ j < i + k then [] else cols.getD j []) := by
  induction k generalizing cols i with
  | zero =>
    refine ⟨rfl, rfl, fun j => ?_⟩
    rw [if_neg (by omega)]
    rfl
  | succ k' ih =>
    have hne : cols.getD i [] ≠ [] := by
      have := h 0 (by omega)
      simpa using this
    have hib : i < cols.length := by
      by_contra hcon
      exact hne (by
        rw [List.getD_eq_getElem?_getD, List.getElem?_eq_none (by omega)]
        rfl)
    have hstep : deallocLoop cols i (k' + 1) = deallocLoop (cols.set i []) (i + 1) k' := by
      rw [deallocLoop]
      rw [if_neg hne]
    have hrec := ih (cols.set i []) (i + 1) (fun m hm => by
      rw [getD_set_ne cols i (i + 1 + m) [] [] (by omega)]
      have := h (m + 1) (by omega)
      have harith : i + (m + 1) = i + 1 + m := by omega
      rw [harith] at this
      exact this)
    refine ⟨by rw [hstep]; exact hrec.1, by rw [hstep, hrec.2.1]; simp, fun j => ?_⟩
    rw [hstep, hrec.2.2 j]
    by_cases hji : j = i
    · subst hji
      rw [if_neg (by omega), if_pos (by omega)]
      exact getD_set_self cols j [] [] hib
    · rw [getD_set_ne cols i j [] [] (fun hc => hji hc.symm)]
      rcases Nat.lt_or_ge j (i + 1) with hj1 | hj1
      · rw [if_neg (by omega), if_neg (by omega)]
      · rcases Nat.lt_or_ge j (i + 1 + k') with hj2 | hj2
        · rw [if_pos (by omega), if_pos (by omega)]
        · rw [if_neg (by omega), if_neg (by omega)]

/-- Behaviour of `Archetype::dealloc` on an allocated well-formed archetype: every column and the metadata array are freed and the capacity is zeroed, while descriptor and entity count are untouched. -/
theorem dealloc_spec (a : Archetype) (hwf : a.wf) (hcap : 1 ≤ a.capacity) :
    (∀ i, i < a.descriptor.components.length → a.dealloc.columns.getD i [] = []) ∧
    a.dealloc.entity_metadata = [] ∧
    a.dealloc.capacity = 0 ∧
    a.dealloc.entity_count = a.entity_count ∧
    a.dealloc.descriptor = a.descriptor := by
  obtain ⟨hclen, hmlen, hcnt, hcols, hsz⟩ := hwf
  have hall : ∀ m, m < a.descriptor.components.length → a.columns.getD (0 + m) [] ≠ [] := by
    intro m hm
    have h1 := hcols m hm
    have h2 := hsz m hm
    intro hcon
    rw [Nat.zero_add] at hcon
    rw [hcon, List.length_nil] at h1
    have hpos : 0 < a.capacity * (a.descriptor.components.getD m default).size :=
      Nat.mul_pos (by omega) h2
    omega
  have hloop := deallocLoop_spec a.columns 0 a.descriptor.components.length hall
  simp only [Archetype.dealloc]
  rw [hloop.1]
  rw [if_pos rfl]
  refine ⟨fun i hi => ?_, rfl, rfl, rfl, rfl⟩
  rw [hloop.2.2 i, if_pos (by omega)]

/-- Claim C2: `resize_capacity(delta)` on an allocated well-formed archetype either deallocates everything and zeroes the capacity (when the new capacity is at most 0 or at least `MAX_ENTITIES_PER_ARCHETYPE`), or reallocates every column and the metadata array to exactly the new capacity of rows and stores `capacity + delta` in the capacity field. -/
theorem resize_capacity_spec (a : Archetype) (delta : Int) (hwf : a.wf)
    (hcap : 1 ≤ a.capacity) :
    (((a.capacity : Int) + delta ≤ 0 ∨
        (MAX_ENTITIES_PER_ARCHETYPE : Int) ≤ (a.capacity : Int) + delta) →
      (∀ i, i < a.descriptor.components.length →
        (a.resize_capacity delta).columns.getD i [] = []) ∧
      (a.resize_capacity delta).entity_metadata = [] ∧
      (a.resize_capacity delta).capacity = 0) ∧
    ((0 < (a.capacity : Int) + delta ∧
        (a.capacity : Int) + delta < (MAX_ENTITIES_PER_ARCHETYPE : Int)) →
      (∀ i, i < a.descriptor.components.length →
        ((a.resize_capacity delta).columns.getD i []).length =
          ((a.capacity : Int) + delta).toNat *
            (a.descriptor.components.getD i default).size) ∧
      (a.resize_capacity delta).entity_metadata.length = ((a.capacity : Int) + delta).toNat ∧
      ((a.resize_capacity delta).capacity : Int) = (a.capacity : Int) + delta) := by
  constructor
  · intro hcond
    have hde : a.resize_capacity delta = a.dealloc := by
      unfold Archetype.resize_capacity
      rw [if_pos hcond]
    rw [hde]
    have hd := dealloc_spec a hwf hcap
    exact ⟨hd.1, hd.2.1, hd.2.2.1⟩
  · intro hcond
    have hncond : ¬ ((a.capacity : Int) + delta ≤ 0 ∨
        (MAX_ENTITIES_PER_ARCHETYPE : Int) ≤ (a.capacity : Int) + delta) := by omega
    have hre : a.resize_capacity delta =
        { a with
          entity_metadata :=
            reallocList a.entity_metadata ((a.capacity : Int) + delta).toNat default,
          columns := updateCols a.columns a.descriptor.components.length (fun i c =>
            reallocList c ((a.comp i).size * ((a.capacity : Int) + delta).toNat) 0),
          capacity := ((a.capacity : Int) + delta).toNat } := by
      unfold Archetype.resize_capacity
      rw [if_neg hncond]
    rw [hre]
    obtain ⟨hclen, hmlen, hcnt, hcols, hsz⟩ := hwf
    refine ⟨fun i hi => ?_, by simp [reallocList_length], ?_⟩
    · have hib : i < a.columns.length := by omega
      rw [updateCols_getD, if_pos hib, if_pos hi]
      rw [reallocList_length]
      unfold Archetype.comp
      exact Nat.mul_comm _ _
    · show ((((a.capacity : Int) + delta).toNat : Nat) : Int) = (a.capacity : Int) + delta
      exact Int.toNat_of_nonneg (by omega)

/-- Witness: `resize_capacity_spec` applied to a concrete allocated archetype and delta 1. -/
theorem resize_capacity_spec_witness :
    archOne.wf ∧ 1 ≤ archOne.capacity ∧
    (∀ i, i < archOne.descriptor.components.length →
      ((archOne.resize_capacity 1).columns.getD i []).length =
        ((archOne.capacity : Int) + 1).toNat *
          (archOne.descriptor.components.getD i default).size) ∧
    (archOne.resize_capacity 1).entity_metadata.length =
      ((archOne.capacity : Int) + 1).toNat ∧
    ((archOne.resize_capacity 1).capacity : Int) = (archOne.capacity : Int) + 1 :=
  have hwf : archOne.wf := by unfold Archetype.wf; decide
  have h := (resize_capacity_spec archOne 1 hwf (by decide)).2 (by constructor <;> decide)
  ⟨hwf, by decide, h.1, h.2.1, h.2.2⟩

/-- Swapping rows leaves the descriptor unchanged. -/
theorem swap_entities_descriptor (a : Archetype) (i j : Nat) :
    (a.swap_entities i j).descriptor = a.descriptor := rfl

/-- Swapping rows leaves the entity count unchanged. -/
theorem swap_entities_count (a : Archetype) (i j : Nat) :
    (a.swap_entities i j).entity_count = a.entity_count := rfl

/-- Dropping a row leaves the metadata unchanged (the drop handlers only touch column bytes). -/
theorem drop_entity_metadata (a : Archetype) (i : Nat) :
    (a.drop_entity i).entity_metadata = a.entity_metadata := rfl

/-- Dropping a row leaves the entity count unchanged. -/
theorem drop_entity_count (a : Archetype) (i : Nat) :
    (a.drop_entity i).entity_count = a.entity_count := rfl

/-- A double swap of two distinct slots of a list restores the list. -/
theorem set_swap_involutive {α : Type} (l : List α) (i j : Nat) (d : α)
    (hi : i < l.length) (hj : j < l.length) (hij : i ≠ j) :
    ((((l.set i (l.getD j d)).set j (l.getD i d)).set i
        (((l.set i (l.getD j d)).set j (l.getD i d)).getD j d)).set j
        (((l.set i (l.getD j d)).set j (l.getD i d)).getD i d)) = l := by
  have h1j : ((l.set i (l.getD j d)).set j (l.getD i d)).getD j d = l.getD i d :=
    getD_set_self _ j _ d (by simpa using hj)
  have h1i : ((l.set i (l.getD j d)).set j (l.getD i d)).getD i d = l.getD j d := by
    rw [getD_set_ne _ j i _ d (fun hc => hij hc.symm)]
    exact getD_set_self _ i _ d hi
  rw [h1j, h1i]
  apply eq_of_getD _ _ d (by simp)
  intro k hk
  have hk' : k < l.length := by simpa using hk
  by_cases hkj : k = j
  · subst hkj
    rw [getD_set_self _ k _ d (by simpa using hk')]
  · rw [getD_set_ne _ j k _ d (fun hc => hkj hc.symm)]
    by_cases hki : k = i
    · subst hki
      rw [getD_set_self _ k _ d (by simpa using hk')]
    · rw [getD_set_ne _ i k _ d (fun hc => hki hc.symm)]
      rw [getD_set_ne _ j k _ d (fun hc => hkj hc.symm)]
      exact getD_set_ne _ i k _ d (fun hc => hki hc.symm)

/-- A double byte swap of two disjoint in-bounds regions restores the buffer. -/
theorem swapBytes_involutive (col : List Nat) (size sa sb : Nat)
    (h1 : sa + size ≤ col.length) (h2 : sb + size ≤ col.length)
    (hdisj : sa + size ≤ sb ∨ sb + size ≤ sa) :
    writeBytes
      (writeBytes
        (writeBytes (writeBytes col sa (bytesAt col sb size)) sb (bytesAt col sa size))
        sa
        (bytesAt
          (writeBytes (writeBytes col sa (bytesAt col sb size)) sb (bytesAt col sa size))
          sb size))
      sb
      (bytesAt
        (writeBytes (writeBytes col sa (bytesAt col sb size)) sb (bytesAt col sa size))
        sa size) = col := by
  have hral : (bytesAt col sa size).length = size := bytesAt_length col sa size h1
  have hrbl : (bytesAt col sb size).length = size := bytesAt_length col sb size h2
  have hc1b : sa + (bytesAt col sb size).length ≤ col.length := by rw [hrbl]; exact h1
  have hc1len : (writeBytes col sa (bytesAt col sb size)).length = col.length :=
    writeBytes_length _ _ _ hc1b
  have hc2b : sb + (bytesAt col sa size).length ≤
      (writeBytes col sa (bytesAt col sb size)).length := by rw [hral, hc1len]; exact h2
  have hc2len :
      (writeBytes (writeBytes col sa (bytesAt col sb size)) sb (bytesAt col sa size)).length =
        col.length := by rw [writeBytes_length _ _ _ hc2b, hc1len]
  have e2 : bytesAt
      (writeBytes (writeBytes col sa (bytesAt col sb size)) sb (bytesAt col sa size)) sb size =
      bytesAt col sa size := by
    have := bytesAt_writeBytes_self (writeBytes col sa (bytesAt col sb size))
      (bytesAt col sa size) sb hc2b
    rw [hral] at this
    exact this
  have e1 : bytesAt
      (writeBytes (writeBytes col sa (bytesAt col sb size)) sb (bytesAt col sa size)) sa size =
      bytesAt col sb size := by
    rw [bytesAt_writeBytes_disjoint _ _ _ _ _ hc2b (by rw [hral]; omega)]
    have := bytesAt_writeBytes_self col (bytesAt col sb size) sa hc1b
    rw [hrbl] at this
    exact this
  rw [e1, e2]
  have hc3b : sa + (bytesAt col sa size).length ≤
      (writeBytes (writeBytes col sa (bytesAt col sb size)) sb (bytesAt col sa size)).length := by
    rw [hral, hc2len]; exact h1
  have hc3len := writeBytes_length _ _ _ hc3b
  have hc4b : sb + (bytesAt col sb size).length ≤
      (writeBytes
        (writeBytes (writeBytes col sa (bytesAt col sb size)) sb (bytesAt col sa size)) sa
        (bytesAt col sa size)).length := by
    rw [hrbl, hc3len, hc2len]; exact h2
  apply eq_of_getD _ _ 0
  · rw [writeBytes_length _ _ _ hc4b, hc3len, hc2len]
  · intro k hk
    have hkcol : k < col.length := by
      rw [writeBytes_length _ _ _ hc4b, hc3len, hc2len] at hk
      exact hk
    rw [writeBytes_getD _ _ _ _ hc4b]
    rw [hrbl]
    by_cases hkB : sb ≤ k ∧ k < sb + size
    · rw [if_pos hkB, bytesAt_getD, if_pos (by omega : k - sb < size),
        (by omega : sb + (k - sb) = k)]
    · rw [if_neg hkB, writeBytes_getD _ _ _ _ hc3b, hral]
      by_cases hkA : sa ≤ k ∧ k < sa + size
      · rw [if_pos hkA, bytesAt_getD, if_pos (by omega : k - sa < size),
          (by omega : sa + (k - sa) = k)]
      · rw [if_neg hkA, writeBytes_getD _ _ _ _ hc2b, hral, if_neg hkB,
          writeBytes_getD _ _ _ _ hc1b, hrbl, if_neg hkA]

/-- Swapping rows leaves the column component descriptors unchanged. -/
theorem swap_entities_comp (a : Archetype) (i j c : Nat) :
    (a.swap_entities i j).comp c = a.comp c := rfl

/-- The `comp` accessor spelt out. -/
theorem comp_spec (a : Archetype) (c : Nat) :
    a.comp c = a.descriptor.components.getD c default := rfl

/-- Columns of a row swap as a column-loop update. -/
theorem swap_entities_columns_eq (a : Archetype) (first second : Nat) :
    (a.swap_entities first second).columns =
      updateCols a.columns a.descriptor.components.length (fun i c =>
        writeBytes
          (writeBytes c ((a.comp i).size * first)
            (bytesAt c ((a.comp i).size * second) (a.comp i).size))
          ((a.comp i).size * second)
          (bytesAt c ((a.comp i).size * first) (a.comp i).size)) := rfl

/-- Column buffer count is preserved by a row swap. -/
theorem swap_entities_columns_length (a : Archetype) (i j : Nat) :
    (a.swap_entities i j).columns.length = a.columns.length := by
  rw [swap_entities_columns_eq]
  exact updateCols_length _ _ _

/-- Column buffer of a row swap, pointwise. -/
theorem swap_entities_col (a : Archetype) (i j c : Nat) (hc : c < a.columns.length) :
    (a.swap_entities i j).columns.getD c [] =
      if c < a.descriptor.components.length then
        writeBytes
          (writeBytes (a.columns.getD c []) ((a.comp c).size * i)
            (bytesAt (a.columns.getD c []) ((a.comp c).size * j) (a.comp c).size))
          ((a.comp c).size * j)
          (bytesAt (a.columns.getD c []) ((a.comp c).size * i) (a.comp c).size)
      else a.columns.getD c [] := by
  rw [swap_entities_columns_eq, updateCols_getD, if_pos hc]

/-- Metadata of a row swap. -/
theorem swap_entities_metadata (a : Archetype) (i j : Nat) :
    (a.swap_entities i j).entity_metadata =
      (a.entity_metadata.set i (a.entity_metadata.getD j default)).set j
        (a.entity_metadata.getD i default) := rfl

/-- Claim C4: on a well-formed archetype with `row < entity_count`, `swap_drop` decrements the entity count by exactly 1, reports a swap exactly when `row` was not the last row, in which case the stable handle previously held by the last row is found at `row` afterwards; when no swap is reported the metadata array is untouched. -/
theorem swap_drop_spec (a : Archetype) (row : Nat) (hwf : a.wf)
    (hrow : row < a.entity_count) :
    (a.swap_drop_unchecked row).1.entity_count = a.entity_count - 1 ∧
    ((a.swap_drop_unchecked row).2 = true ↔ row ≠ a.entity_count - 1) ∧
    ((a.swap_drop_unchecked row).2 = true →
      (a.swap_drop_unchecked row).1.entity_metadata.getD row default =
        a.entity_metadata.getD (a.entity_count - 1) default) ∧
    ((a.swap_drop_unchecked row).2 = false →
      (a.swap_drop_unchecked row).1.entity_metadata = a.entity_metadata) := by
  obtain ⟨hclen, hmlen, hcnt, hcols, hsz⟩ := hwf
  by_cases hlast : row = a.entity_count - 1
  · have he : a.swap_drop_unchecked row =
        ({ a.drop_entity row with entity_count := (a.drop_entity row).entity_count - 1 },
          false) := by
      unfold Archetype.swap_drop_unchecked
      rw [if_pos hlast]
    rw [he]
    refine ⟨rfl, by simp [hlast], by simp, fun _ => rfl⟩
  · have he : a.swap_drop_unchecked row =
        ({ (a.swap_entities row (a.entity_count - 1)).drop_entity
              ((a.swap_entities row (a.entity_count - 1)).entity_count - 1) with
            entity_count :=
              ((a.swap_entities row (a.entity_count - 1)).drop_entity
                ((a.swap_entities row (a.entity_count - 1)).entity_count - 1)).entity_count -
                1 },
          true) := by
      unfold Archetype.swap_drop_unchecked
      rw [if_neg hlast]
    rw [he]
    refine ⟨rfl, by simp [hlast], fun _ => ?_, by simp⟩
    show ((a.entity_metadata.set row
        (a.entity_metadata.getD (a.entity_count - 1) default)).set (a.entity_count - 1)
        (a.entity_metadata.getD row default)).getD row default =
      a.entity_metadata.getD (a.entity_count - 1) default
    rw [getD_set_ne _ (a.entity_count - 1) row _ default (fun hc => hlast hc.symm)]
    exact getD_set_self _ row _ default (by omega)

/-- Witness: `swap_drop_spec` applied to a concrete two-row archetype at row 0. -/
theorem swap_drop_spec_witness :
    archTwo.wf ∧ 0 < archTwo.entity_count ∧
    (archTwo.swap_drop_unchecked 0).1.entity_count = archTwo.entity_count - 1 ∧
    ((archTwo.swap_drop_unchecked 0).2 = true ↔ 0 ≠ archTwo.entity_count - 1) ∧
    ((archTwo.swap_drop_unchecked 0).2 = true →
      (archTwo.swap_drop_unchecked 0).1.entity_metadata.getD 0 default =
        archTwo.entity_metadata.getD (archTwo.entity_count - 1) default) ∧
    ((archTwo.swap_drop_unchecked 0).2 = false →
      (archTwo.swap_drop_unchecked 0).1.entity_metadata = archTwo.entity_metadata) :=
  have hwf : archTwo.wf := by unfold Archetype.wf; decide
  have h := swap_drop_spec archTwo 0 hwf (by decide)
  ⟨hwf, by decide, h.1, h.2.1, h.2.2.1, h.2.2.2⟩

/-- Claim C8: performing `swap_entities(a, b)` twice on distinct in-bounds rows restores every byte of every column and every metadata slot. -/
theorem swap_entities_involutive (x : Archetype) (i j : Nat) (hwf : x.wf)
    (hi : i < x.entity_count) (hj : j < x.entity_count) (hij : i ≠ j) :
    ((x.swap_entities i j).swap_entities i j).columns = x.columns ∧
    ((x.swap_entities i j).swap_entities i j).entity_metadata = x.entity_metadata := by
  obtain ⟨hclen, hmlen, hcnt, hcols, hsz⟩ := hwf
  constructor
  · apply eq_of_getD _ _ []
    · rw [swap_entities_columns_length, swap_entities_columns_length]
    · intro c hc
      rw [swap_entities_columns_length, swap_entities_columns_length] at hc
      have hc1 : c < (x.swap_entities i j).columns.length := by
        rw [swap_entities_columns_length]
        exact hc
      rw [swap_entities_col (x.swap_entities i j) i j c hc1, swap_entities_descriptor,
        swap_entities_comp, swap_entities_col x i j c hc]
      by_cases hcl : c < x.descriptor.components.length
      · rw [if_pos hcl, if_pos hcl]
        have hlen := hcols c hcl
        have hspos := hsz c hcl
        rw [← comp_spec x c] at hlen hspos
        have hbi : (x.comp c).size * i + (x.comp c).size ≤ (x.columns.getD c []).length := by
          rw [hlen]
          have h1 : (x.comp c).size * i + (x.comp c).size = (x.comp c).size * (i + 1) :=
            (Nat.mul_succ _ _).symm
          rw [h1, Nat.mul_comm x.capacity (x.comp c).size]
          exact Nat.mul_le_mul_left _ (by omega)
        have hbj : (x.comp c).size * j + (x.comp c).size ≤ (x.columns.getD c []).length := by
          rw [hlen]
          have h1 : (x.comp c).size * j + (x.comp c).size = (x.comp c).size * (j + 1) :=
            (Nat.mul_succ _ _).symm
          rw [h1, Nat.mul_comm x.capacity (x.comp c).size]
          exact Nat.mul_le_mul_left _ (by omega)
        have hdisj : (x.comp c).size * i + (x.comp c).size ≤ (x.comp c).size * j ∨
            (x.comp c).size * j + (x.comp c).size ≤ (x.comp c).size * i := by
          rcases Nat.lt_or_ge i j with hlt | hge
          · left
            rw [(Nat.mul_succ _ _).symm]
            exact Nat.mul_le_mul_left _ (by omega)
          · right
            rw [(Nat.mul_succ _ _).symm]
            exact Nat.mul_le_mul_left _ (by omega)
        exact swapBytes_involutive (x.columns.getD c []) (x.comp c).size
          ((x.comp c).size * i) ((x.comp c).size * j) hbi hbj hdisj
      · rw [if_neg hcl, if_neg hcl]
  · rw [swap_entities_metadata (x.swap_entities i j) i j, swap_entities_metadata x i j]
    exact set_swap_involutive x.entity_metadata i j default (by omega) (by omega) hij

/-- Witness: `swap_entities_involutive` applied to a concrete two-row archetype. -/
theorem swap_entities_involutive_witness :
    archTwo.wf ∧
    ((archTwo.swap_entities 0 1).swap_entities 0 1).columns = archTwo.columns ∧
    ((archTwo.swap_entities 0 1).swap_entities 0 1).entity_metadata =
      archTwo.entity_metadata :=
  have hwf : archTwo.wf := by unfold Archetype.wf; decide
  have h := swap_entities_involutive archTwo 0 1 hwf (by decide) (by decide) (by decide)
  ⟨hwf, h.1, h.2⟩

/-- Sorted pointer slot `unsorted_to_sorted(j)` holds caller component `j`'s bytes (the permutation writes each slot exactly once). -/
theorem as_sorted_pointers_getD (g : GroupValue) (j : Nat) (hnd : g.perm.Nodup)
    (hlen : g.perm.length = g.values.length) (hj : j < g.perm.length)
    (hb : g.perm.getD j 0 < MAX_COMPONENTS_PER_ENTITY) :
    g.as_sorted_pointers.getD (g.perm.getD j 0) [] = g.values.getD j [] := by
  unfold GroupValue.as_sorted_pointers
  exact foldl_set_zip_getD g.perm g.values _ [] hnd hlen j hj (by simpa using hb)

/-- Element of a mapped list below the length. -/
theorem getD_map_lt {α β : Type} (f : α → β) (l : List α) (j : Nat) (d : β) (d' : α)
    (hj : j < l.length) : (l.map f).getD j d = f (l.getD j d') := by
  rw [List.getD_eq_getElem?_getD, List.getElem?_map, List.getElem?_eq_getElem hj,
    List.getD_eq_getElem?_getD, List.getElem?_eq_getElem hj]
  rfl

/-- Writing a row leaves the descriptor unchanged. -/
theorem write_entity_descriptor (a : Archetype) (index : Nat) (m : EntityMetadata)
    (gcomps : List ComponentDescriptor) (g : GroupValue) :
    (a.write_entity_unchecked index m gcomps g).descriptor = a.descriptor := rfl

/-- Writing a row leaves the entity count unchanged. -/
theorem write_entity_count (a : Archetype) (index : Nat) (m : EntityMetadata)
    (gcomps : List ComponentDescriptor) (g : GroupValue) :
    (a.write_entity_unchecked index m gcomps g).entity_count = a.entity_count := rfl

/-- Writing a row leaves the capacity unchanged. -/
theorem write_entity_capacity (a : Archetype) (index : Nat) (m : EntityMetadata)
    (gcomps : List ComponentDescriptor) (g : GroupValue) :
    (a.write_entity_unchecked index m gcomps g).capacity = a.capacity := rfl

/-- Metadata after writing a row. -/
theorem write_entity_metadata (a : Archetype) (index : Nat) (m : EntityMetadata)
    (gcomps : List ComponentDescriptor) (g : GroupValue) :
    (a.write_entity_unchecked index m gcomps g).entity_metadata =
      a.entity_metadata.set index m := rfl

/-- Columns after writing a row, as a column-loop update over the group's arity. -/
theorem write_entity_columns_eq (a : Archetype) (index : Nat) (m : EntityMetadata)
    (gcomps : List ComponentDescriptor) (g : GroupValue) :
    (a.write_entity_unchecked index m gcomps g).columns =
      updateCols a.columns gcomps.length (fun i c =>
        writeBytes c ((gcomps.getD i default).size * index)
          ((g.as_sorted_pointers.getD i []).take (gcomps.getD i default).size)) := rfl

/-- Growth branch of `resize_capacity`: for a positive delta whose target stays below the maximum, every column and the metadata array are reallocated to the new row count and the capacity is updated; descriptor and count are untouched. -/
theorem resize_capacity_grow (a : Archetype) (delta : Nat) (h1 : 1 ≤ delta)
    (h2 : a.capacity + delta < MAX_ENTITIES_PER_ARCHETYPE) :
    (a.resize_capacity (delta : Int)).descriptor = a.descriptor ∧
    (a.resize_capacity (delta : Int)).entity_count = a.entity_count ∧
    (a.resize_capacity (delta : Int)).capacity = a.capacity + delta ∧
    (a.resize_capacity (delta : Int)).entity_metadata =
      reallocList a.entity_metadata (a.capacity + delta) default ∧
    (a.resize_capacity (delta : Int)).columns =
      updateCols a.columns a.descriptor.components.length (fun i c =>
        reallocList c ((a.comp i).size * (a.capacity + delta)) 0) := by
  have hncond : ¬ ((a.capacity : Int) + (delta : Int) ≤ 0 ∨
      (MAX_ENTITIES_PER_ARCHETYPE : Int) ≤ (a.capacity : Int) + (delta : Int)) := by
    omega
  have htn : ((a.capacity : Int) + (delta : Int)).toNat = a.capacity + delta := by omega
  have hre : a.resize_capacity (delta : Int) =
      { a with
        entity_metadata :=
          reallocList a.entity_metadata (((a.capacity : Int) + (delta : Int)).toNat) default,
        columns := updateCols a.columns a.descriptor.components.length (fun i c =>
          reallocList c ((a.comp i).size * (((a.capacity : Int) + (delta : Int)).toNat)) 0),
        capacity := ((a.capacity : Int) + (delta : Int)).toNat } := by
    unfold Archetype.resize_capacity
    rw [if_neg hncond]
  rw [hre, htn]
  exact ⟨rfl, rfl, rfl, rfl, rfl⟩

/-- Unfolding of `push_entity_unchecked` on a full archetype. -/
theorem push_entity_full_eq (a : Archetype) (m : EntityMetadata)
    (gcomps : List ComponentDescriptor) (g : GroupValue)
    (hfull : a.entity_count = a.capacity) :
    a.push_entity_unchecked m gcomps g =
      ({ (a.resize_capacity
            (if a.capacity = 0 then (DEFAULT_ARCHETYPE_ALLOCATION_SIZE : Int)
             else (a.capacity : Int))).write_entity_unchecked
            (a.resize_capacity
              (if a.capacity = 0 then (DEFAULT_ARCHETYPE_ALLOCATION_SIZE : Int)
               else (a.capacity : Int))).entity_count m gcomps g with
          entity_count :=
            ((a.resize_capacity
                (if a.capacity = 0 then (DEFAULT_ARCHETYPE_ALLOCATION_SIZE : Int)
                 else (a.capacity : Int))).write_entity_unchecked
              (a.resize_capacity
                (if a.capacity = 0 then (DEFAULT_ARCHETYPE_ALLOCATION_SIZE : Int)
                 else (a.capacity : Int))).entity_count m gcomps g).entity_count + 1 },
       (a.resize_capacity
          (if a.capacity = 0 then (DEFAULT_ARCHETYPE_ALLOCATION_SIZE : Int)
           else (a.capacity : Int))).entity_count) := by
  unfold Archetype.push_entity_unchecked
  rw [if_pos hfull]

/-- Unfolding of `push_entity_unchecked` on an archetype with spare capacity. -/
theorem push_entity_notfull_eq (a : Archetype) (m : EntityMetadata)
    (gcomps : List ComponentDescriptor) (g : GroupValue)
    (hnf : ¬ a.entity_count = a.capacity) :
    a.push_entity_unchecked m gcomps g =
      ({ a.write_entity_unchecked a.entity_count m gcomps g with
          entity_count :=
            (a.write_entity_unchecked a.entity_count m gcomps g).entity_count + 1 },
       a.entity_count) := by
  unfold Archetype.push_entity_unchecked
  rw [if_neg hnf]

/-- Claim C3 (amended): when `push_entity` is called on a full well-formed archetype (and the grown capacity stays below `MAX_ENTITIES_PER_ARCHETYPE`), the capacity grows by `DEFAULT_ARCHETYPE_ALLOCATION_SIZE` when it was 0 and by the current capacity otherwise; whenever the capacity is 0 or at least the default, this growth coincides with the claimed `max(DEFAULT_ARCHETYPE_ALLOCATION_SIZE, capacity)`. The push returns the pre-call `entity_count` as the new row index, writes the metadata there, and increments `entity_count` by exactly 1. -/
theorem push_entity_growth_spec (a : Archetype) (m : EntityMetadata)
    (gcomps : List ComponentDescriptor) (g : GroupValue) (hwf : a.wf)
    (hfull : a.entity_count = a.capacity)
    (hmax : 2 * a.capacity + DEFAULT_ARCHETYPE_ALLOCATION_SIZE <
      MAX_ENTITIES_PER_ARCHETYPE) :
    (a.push_entity_unchecked m gcomps g).1.capacity =
      a.capacity +
        (if a.capacity = 0 then DEFAULT_ARCHETYPE_ALLOCATION_SIZE else a.capacity) ∧
    ((a.capacity = 0 ∨ DEFAULT_ARCHETYPE_ALLOCATION_SIZE ≤ a.capacity) →
      (a.push_entity_unchecked m gcomps g).1.capacity =
        a.capacity + max DEFAULT_ARCHETYPE_ALLOCATION_SIZE a.capacity) ∧
    (a.push_entity_unchecked m gcomps g).2 = a.entity_count ∧
    (a.push_entity_unchecked m gcomps g).1.entity_count = a.entity_count + 1 ∧
    (a.push_entity_unchecked m gcomps g).1.entity_metadata.getD a.entity_count default =
      m := by
  obtain ⟨hclen, hmlen, hcnt, hcols, hsz⟩ := hwf
  rw [push_entity_full_eq a m gcomps g hfull]
  by_cases hc0 : a.capacity = 0
  · simp only [if_pos hc0]
    have hres := resize_capacity_grow a DEFAULT_ARCHETYPE_ALLOCATION_SIZE (by decide)
      (by omega)
    obtain ⟨hrd, hrc, hrcap, hrmd, hrcols⟩ := hres
    refine ⟨?_, ?_, ?_, ?_, ?_⟩
    · rw [write_entity_capacity, hrcap]
    · intro _
      rw [write_entity_capacity, hrcap]
      have : max DEFAULT_ARCHETYPE_ALLOCATION_SIZE a.capacity =
          DEFAULT_ARCHETYPE_ALLOCATION_SIZE := by omega
      rw [this]
    · exact hrc
    · rw [write_entity_count, hrc]
    · rw [write_entity_metadata, hrc]
      have hlen2 : a.entity_count <
          (a.resize_capacity
            (DEFAULT_ARCHETYPE_ALLOCATION_SIZE : Int)).entity_metadata.length := by
        rw [hrmd, reallocList_length]
        have hd : 1 ≤ DEFAULT_ARCHETYPE_ALLOCATION_SIZE := by decide
        omega
      exact getD_set_self _ _ _ _ hlen2
  · simp only [if_neg hc0]
    have hres := resize_capacity_grow a a.capacity (by omega) (by omega)
    obtain ⟨hrd, hrc, hrcap, hrmd, hrcols⟩ := hres
    refine ⟨?_, ?_, ?_, ?_, ?_⟩
    · rw [write_entity_capacity, hrcap]
    · intro hcase
      rw [write_entity_capacity, hrcap]
      have : max DEFAULT_ARCHETYPE_ALLOCATION_SIZE a.capacity = a.capacity := by omega
      rw [this]
    · exact hrc
    · rw [write_entity_count, hrc]
    · rw [write_entity_metadata, hrc]
      have hlen2 : a.entity_count <
          (a.resize_capacity ((a.capacity : Nat) : Int)).entity_metadata.length := by
        rw [hrmd, reallocList_length]
        omega
      exact getD_set_self _ _ _ _ hlen2

/-- Witness: `push_entity_growth_spec` applied to a concrete full archetype of capacity 2. -/
theorem push_entity_growth_spec_witness :
    archFullTwo.wf ∧ archFullTwo.entity_count = archFullTwo.capacity ∧
    (archFullTwo.push_entity_unchecked ⟨9⟩ archFullTwo.descriptor.components
        groupSingleA).1.capacity =
      archFullTwo.capacity +
        (if archFullTwo.capacity = 0 then DEFAULT_ARCHETYPE_ALLOCATION_SIZE
         else archFullTwo.capacity) ∧
    (archFullTwo.push_entity_unchecked ⟨9⟩ archFullTwo.descriptor.components
        groupSingleA).2 = archFullTwo.entity_count ∧
    (archFullTwo.push_entity_unchecked ⟨9⟩ archFullTwo.descriptor.components
        groupSingleA).1.entity_count = archFullTwo.entity_count + 1 ∧
    (archFullTwo.push_entity_unchecked ⟨9⟩ archFullTwo.descriptor.components
        groupSingleA).1.entity_metadata.getD archFullTwo.entity_count default = ⟨9⟩ :=
  have hwf : archFullTwo.wf := by unfold Archetype.wf; decide
  have h := push_entity_growth_spec archFullTwo ⟨9⟩ archFullTwo.descriptor.components
    groupSingleA hwf (by decide) (by decide)
  ⟨hwf, by decide, h.1, h.2.2.1, h.2.2.2.1, h.2.2.2.2⟩

/-- The `read_components_exact` composite spelt out. -/
theorem read_components_eq (x : Archetype) (perm : List Nat) (index : Nat) :
    x.read_components_exact_unchecked perm index =
      perm.map (fun p => x.rowBytes p index) := rfl

/-- The `rowBytes` accessor spelt out. -/
theorem rowBytes_eq (x : Archetype) (i row : Nat) :
    x.rowBytes i row =
      bytesAt (x.columns.getD i []) ((x.comp i).size * row) (x.comp i).size := rfl

/-- Reading back a region of the stated length that was just copied. -/
theorem bytesAt_writeBytes_self' (dst src : List Nat) (off n : Nat) (hn : src.length = n)
    (h : off + n ≤ dst.length) : bytesAt (writeBytes dst off src) off n = src := by
  subst hn
  exact bytesAt_writeBytes_self dst src off h

/-- Decomposition of `push_entity_unchecked`: the push acts as `write_entity` at the pre-call entity count on an intermediate archetype (`a` itself, or `a` grown by the doubling rule when full) that has spare capacity, the same descriptor and entity count as `a`, and column buffers sized to its capacity. -/
theorem push_intermediate (a : Archetype) (m : EntityMetadata)
    (gcomps : List ComponentDescriptor) (g : GroupValue) (hwf : a.wf)
    (hmax : 2 * a.capacity + DEFAULT_ARCHETYPE_ALLOCATION_SIZE <
      MAX_ENTITIES_PER_ARCHETYPE) :
    ∃ a1 : Archetype,
      a.push_entity_unchecked m gcomps g =
        ({ a1.write_entity_unchecked a1.entity_count m gcomps g with
            entity_count :=
              (a1.write_entity_unchecked a1.entity_count m gcomps g).entity_count + 1 },
         a1.entity_count) ∧
      a1.descriptor = a.descriptor ∧
      a1.entity_count = a.entity_count ∧
      a1.entity_count < a1.capacity ∧
      a1.entity_metadata.length = a1.capacity ∧
      a1.columns.length = a.columns.length ∧
      (∀ i, i < a.descriptor.components.length →
        (a1.columns.getD i []).length =
          a1.capacity * (a.descriptor.components.getD i default).size) := by
  obtain ⟨hclen, hmlen, hcnt, hcols, hsz⟩ := hwf
  have hd : 1 ≤ DEFAULT_ARCHETYPE_ALLOCATION_SIZE := by decide
  by_cases hfull : a.entity_count = a.capacity
  · by_cases hc0 : a.capacity = 0
    · refine ⟨a.resize_capacity (DEFAULT_ARCHETYPE_ALLOCATION_SIZE : Int), ?_, ?_⟩
      · rw [push_entity_full_eq a m gcomps g hfull, if_pos hc0]
      · have hres := resize_capacity_grow a DEFAULT_ARCHETYPE_ALLOCATION_SIZE hd (by omega)
        obtain ⟨hrd, hrc, hrcap, hrmd, hrcols⟩ := hres
        refine ⟨hrd, hrc, by omega, by rw [hrmd, reallocList_length, hrcap], ?_, ?_⟩
        · rw [hrcols]
          exact updateCols_length _ _ _
        · intro i hi
          rw [hrcols, updateCols_getD, if_pos (by omega), if_pos hi, reallocList_length,
            comp_spec, hrcap]
          exact Nat.mul_comm _ _
    · refine ⟨a.resize_capacity ((a.capacity : Nat) : Int), ?_, ?_⟩
      · rw [push_entity_full_eq a m gcomps g hfull, if_neg hc0]
      · have hres := resize_capacity_grow a a.capacity (by omega) (by omega)
        obtain ⟨hrd, hrc, hrcap, hrmd, hrcols⟩ := hres
        refine ⟨hrd, hrc, by omega, by rw [hrmd, reallocList_length, hrcap], ?_, ?_⟩
        · rw [hrcols]
          exact updateCols_length _ _ _
        · intro i hi
          rw [hrcols, updateCols_getD, if_pos (by omega), if_pos hi, reallocList_length,
            comp_spec, hrcap]
          exact Nat.mul_comm _ _
  · refine ⟨a, push_entity_notfull_eq a m gcomps g hfull, rfl, rfl, by omega, hmlen, rfl,
      fun i hi => hcols i hi⟩

/-- Claim C5: pushing a component tuple whose group descriptor equals the archetype's and then reading the returned row back yields the tuple in caller order; the push bumps `entity_count` by 1 (reading is a pure observation of the state), and `swap_drop` on the fresh row restores the original count. -/
theorem push_read_roundtrip (a : Archetype) (m : EntityMetadata) (g : GroupValue)
    (hwf : a.wf)
    (hlen14 : a.descriptor.components.length ≤ MAX_COMPONENTS_PER_ENTITY)
    (hpermlen : g.perm.length = a.descriptor.components.length)
    (hvlen : g.perm.length = g.values.length)
    (hnd : g.perm.Nodup)
    (hpb : ∀ j, j < g.perm.length → g.perm.getD j 0 < a.descriptor.components.length)
    (hvsize : ∀ j, j < g.perm.length →
      (g.values.getD j []).length =
        (a.descriptor.components.getD (g.perm.getD j 0) default).size)
    (hmax : 2 * a.capacity + DEFAULT_ARCHETYPE_ALLOCATION_SIZE <
      MAX_ENTITIES_PER_ARCHETYPE) :
    (a.push_entity_unchecked m a.descriptor.components g).2 = a.entity_count ∧
    (a.push_entity_unchecked m a.descriptor.components g).1.entity_count =
      a.entity_count + 1 ∧
    (a.push_entity_unchecked m a.descriptor.components g).1.read_components_exact_unchecked
      g.perm (a.push_entity_unchecked m a.descriptor.components g).2 = g.values ∧
    ((a.push_entity_unchecked m a.descriptor.components g).1.swap_drop_unchecked
      (a.push_entity_unchecked m a.descriptor.components g).2).1.entity_count =
      a.entity_count := by
  obtain ⟨a1, hpush, ha1d, ha1c, ha1lt, ha1md, ha1clen, ha1cols⟩ :=
    push_intermediate a m a.descriptor.components g hwf hmax
  obtain ⟨hclen, hmlen, hcnt, hcols, hsz⟩ := hwf
  rw [hpush]
  refine ⟨ha1c, ?_, ?_, ?_⟩
  · show (a1.write_entity_unchecked a1.entity_count m a.descriptor.components
        g).entity_count + 1 = a.entity_count + 1
    rw [write_entity_count, ha1c]
  · show (a1.write_entity_unchecked a1.entity_count m a.descriptor.components
        g).read_components_exact_unchecked g.perm a1.entity_count = g.values
    rw [read_components_eq]
    apply eq_of_getD _ _ []
    · rw [List.length_map]
      exact hvlen
    · intro k hk
      rw [List.length_map] at hk
      rw [getD_map_lt _ _ k [] 0 hk]
      have hp : g.perm.getD k 0 < a.descriptor.components.length := hpb k hk
      have hpcl : g.perm.getD k 0 <
          (a1.write_entity_unchecked a1.entity_count m a.descriptor.components
            g).columns.length := by
        rw [write_entity_columns_eq, updateCols_length]
        omega
      rw [rowBytes_eq, comp_spec, write_entity_descriptor, ha1d, write_entity_columns_eq,
        updateCols_getD, if_pos (by omega : g.perm.getD k 0 < a1.columns.length),
        if_pos hp]
      have hval : g.as_sorted_pointers.getD (g.perm.getD k 0) [] = g.values.getD k [] :=
        as_sorted_pointers_getD g k hnd hvlen hk (by omega)
      rw [hval, ← hvsize k hk, List.take_length, hvsize k hk]
      apply bytesAt_writeBytes_self' _ _ _ _ (hvsize k hk)
      rw [ha1cols (g.perm.getD k 0) hp]
      have hmul : (a.descriptor.components.getD (g.perm.getD k 0) default).size *
            a1.entity_count +
            (a.descriptor.components.getD (g.perm.getD k 0) default).size =
          (a.descriptor.components.getD (g.perm.getD k 0) default).size *
            (a1.entity_count + 1) := (Nat.mul_succ _ _).symm
      rw [hmul, Nat.mul_comm a1.capacity]
      exact Nat.mul_le_mul_left _ (by omega)
  · have hXc : ({ a1.write_entity_unchecked a1.entity_count m a.descriptor.components g with
        entity_count :=
          (a1.write_entity_unchecked a1.entity_count m a.descriptor.components
            g).entity_count + 1 } : Archetype).entity_count = a1.entity_count + 1 := by
      show (a1.write_entity_unchecked a1.entity_count m a.descriptor.components
        g).entity_count + 1 = a1.entity_count + 1
      rw [write_entity_count]
    unfold Archetype.swap_drop_unchecked
    rw [if_pos (by omega : a1.entity_count =
      ({ a1.write_entity_unchecked a1.entity_count m a.descriptor.components g with
          entity_count :=
            (a1.write_entity_unchecked a1.entity_count m a.descriptor.components
              g).entity_count + 1 } : Archetype).entity_count - 1)]
    show ({ a1.write_entity_unchecked a1.entity_count m a.descriptor.components g with
        entity_count :=
          (a1.write_entity_unchecked a1.entity_count m a.descriptor.components
            g).entity_count + 1 } : Archetype).entity_count - 1 = a.entity_count
    omega

/-- Witness: `push_read_roundtrip` applied to a concrete full two-column archetype with the caller order `(B, A)`. -/
theorem push_read_roundtrip_witness :
    archTwo.wf ∧
    (archTwo.push_entity_unchecked ⟨9⟩ archTwo.descriptor.components groupBA).2 =
      archTwo.entity_count ∧
    (archTwo.push_entity_unchecked ⟨9⟩ archTwo.descriptor.components
        groupBA).1.entity_count = archTwo.entity_count + 1 ∧
    (archTwo.push_entity_unchecked ⟨9⟩ archTwo.descriptor.components
        groupBA).1.read_components_exact_unchecked groupBA.perm
      (archTwo.push_entity_unchecked ⟨9⟩ archTwo.descriptor.components groupBA).2 =
      groupBA.values ∧
    ((archTwo.push_entity_unchecked ⟨9⟩ archTwo.descriptor.components
        groupBA).1.swap_drop_unchecked
      (archTwo.push_entity_unchecked ⟨9⟩ archTwo.descriptor.components
        groupBA).2).1.entity_count = archTwo.entity_count :=
  have hwf : archTwo.wf := by unfold Archetype.wf; decide
  have h := push_read_roundtrip archTwo ⟨9⟩ groupBA hwf (by decide) (by decide) (by decide)
    (by decide) (by decide) (by decide) (by decide)
  ⟨hwf, h.1, h.2.1, h.2.2.1, h.2.2.2⟩

/-- Element access below the length through `getD`. -/
theorem getD_eq_getElem' {α : Type} (l : List α) (u : Nat) (d : α) (hu : u < l.length) :
    l.getD u d = l[u] := by
  rw [List.getD_eq_getElem?_getD, List.getElem?_eq_getElem hu]
  rfl

/-- The boolean strict-sortedness check certifies a chain of strict inequalities. -/
theorem chain_of_idsStrictSorted : ∀ (l : List Nat), idsStrictSorted l = true →
    List.Chain' (fun x y => x < y) l := by
  intro l
  induction l with
  | nil => intro _; exact List.chain'_nil
  | cons a t ih =>
    intro h
    cases t with
    | nil => exact List.chain'_singleton a
    | cons b t2 =>
      have h' : (decide (a < b) && idsStrictSorted (b :: t2)) = true := h
      rw [Bool.and_eq_true] at h'
      rw [List.chain'_cons]
      exact ⟨by simpa using h'.1, ih h'.2⟩

/-- The boolean strict-sortedness check certifies pairwise strict inequalities. -/
theorem pairwise_of_idsStrictSorted (l : List Nat) (h : idsStrictSorted l = true) :
    List.Pairwise (fun x y => x < y) l :=
  List.chain'_iff_pairwise.mp (chain_of_idsStrictSorted l h)

/-- In a strictly increasing list, values respect the index order. -/
theorem pairwise_getD_lt (l : List Nat) (hp : List.Pairwise (fun x y => x < y) l)
    (u v : Nat) (hu : u < l.length) (hv : v < l.length) (huv : u < v) :
    l.getD u 0 < l.getD v 0 := by
  rw [getD_eq_getElem' l u 0 hu, getD_eq_getElem' l v 0 hv]
  exact List.pairwise_iff_get.mp hp ⟨u, hu⟩ ⟨v, hv⟩ huv

/-- In a strictly increasing list, index order follows from value order. -/
theorem index_lt_of_getD_lt (l : List Nat) (hp : List.Pairwise (fun x y => x < y) l)
    (u v : Nat) (hu : u < l.length) (hv : v < l.length)
    (hval : l.getD u 0 < l.getD v 0) : u < v := by
  rcases Nat.lt_trichotomy u v with h | h | h
  · exact h
  · subst h
    omega
  · have := pairwise_getD_lt l hp v u hv hu h
    omega

/-- Ids of a component list, pointwise. -/
theorem compIds_getD (l : List ComponentDescriptor) (u : Nat) (hu : u < l.length) :
    (compIds l).getD u 0 = (l.getD u default).component_type_id := by
  unfold compIds
  exact getD_map_lt _ l u 0 default hu

/-- Length of the id list of a component list. -/
theorem compIds_length (l : List ComponentDescriptor) : (compIds l).length = l.length := by
  unfold compIds
  simp

/-- Specification of `index_of_comps` when the id is present: in-bounds first match. -/
theorem index_of_comps_spec (comps : List ComponentDescriptor) (tid : Nat)
    (hmem : tid ∈ compIds comps) :
    index_of_comps comps tid < comps.length ∧
    (comps.getD (index_of_comps comps tid) default).component_type_id = tid ∧
    (∀ u, u < index_of_comps comps tid →
      (comps.getD u default).component_type_id ≠ tid) := by
  have hex : ∃ c ∈ comps, (fun c : ComponentDescriptor => c.component_type_id == tid) c
      = true := by
    obtain ⟨c, hc, hcid⟩ := List.mem_map.mp hmem
    exact ⟨c, hc, by simpa using hcid⟩
  have hlt : index_of_comps comps tid < comps.length := List.findIdx_lt_length.mpr hex
  have heq := (List.findIdx_eq (p := fun c : ComponentDescriptor =>
    c.component_type_id == tid) hlt).mp rfl
  refine ⟨hlt, ?_, ?_⟩
  · rw [getD_eq_getElem' comps _ default hlt]
    simpa using heq.1
  · intro u hu
    have hub : u < comps.length := by omega
    rw [getD_eq_getElem' comps u default hub]
    have := heq.2 u hu
    simpa using this

/-- The inner scan of the fuzzy lookup finds the unique match at or after its start. -/
theorem searchFrom_finds (acomps : List ComponentDescriptor) (aptrs : List Nat)
    (tid p : Nat) (hp : p < acomps.length)
    (hpid : (acomps.getD p default).component_type_id = tid)
    (hbefore : ∀ u, u < p → (acomps.getD u default).component_type_id ≠ tid) :
    ∀ fuel start, start ≤ p → fuel = acomps.length - start →
      searchFrom acomps aptrs tid start fuel = some (aptrs.getD p 0) := by
  intro fuel
  induction fuel with
  | zero =>
    intro start hsp hfuel
    omega
  | succ f ihf =>
    intro start hsp hfuel
    rw [searchFrom]
    by_cases hsep : start = p
    · subst hsep
      rw [if_pos hpid]
    · have hslt : start < p := by omega
      rw [if_neg (hbefore start hslt)]
      exact ihf (start + 1) (by omega) (by omega)

/-- Membership of the indexed element in `enumFrom`. -/
theorem mem_enumFrom_getD (l : List ComponentDescriptor) : ∀ (p s : Nat), p < l.length →
    (s + p, l.getD p default) ∈ List.enumFrom s l := by
  induction l with
  | nil =>
    intro p s hp
    simp at hp
  | cons a t ih =>
    intro p s hp
    rw [List.enumFrom_cons]
    cases p with
    | zero =>
      rw [Nat.add_zero]
      exact List.mem_cons_self _ _
    | succ p2 =>
      have harith : s + (p2 + 1) = (s + 1) + p2 := by omega
      rw [harith]
      exact List.mem_cons_of_mem _ (ih p2 (s + 1) (by simpa using hp))

/-- A fold over index-component pairs with duplicate-free indices, whose step conditionally sets its own slot: the slot of a pair whose action fires holds that value at the end. -/
theorem fuzzy_fold_getD (F : Nat → ComponentDescriptor → Option Nat) :
    ∀ (pairs : List (Nat × ComponentDescriptor)) (init : List Nat) (j : Nat)
      (c : ComponentDescriptor) (v : Nat),
      (pairs.map Prod.fst).Nodup → (j, c) ∈ pairs → F j c = some v → j < init.length →
      (pairs.foldl (fun ptrs p =>
        match F p.1 p.2 with
        | some q => ptrs.set p.1 q
        | none => ptrs) init).getD j 0 = v := by
  intro pairs
  induction pairs with
  | nil =>
    intro init j c v hnd hmem hF hj
    simp at hmem
  | cons p pt ih =>
    intro init j c v hnd hmem hF hj
    rw [List.foldl_cons]
    by_cases hpj : p.1 = j
    · have hp : p = (j, c) := by
        rcases List.mem_cons.mp hmem with h | h
        · exact h.symm
        · exfalso
          have hjm : j ∈ pt.map Prod.fst :=
            List.mem_map.mpr ⟨(j, c), h, rfl⟩
          rw [List.map_cons, List.nodup_cons] at hnd
          exact hnd.1 (hpj ▸ hjm)
      subst hp
      rw [foldl_preserve_getD pt _ _ 0 j ?side]
      · show (match F j c with
          | some q => init.set j q
          | none => init).getD j 0 = v
        rw [hF]
        exact getD_set_self init j v 0 hj
      case side =>
        intro acc q hq
        have hqne : q.1 ≠ j := by
          intro hcq
          have hjm : j ∈ pt.map Prod.fst := List.mem_map.mpr ⟨q, hq, hcq⟩
          rw [List.map_cons, List.nodup_cons] at hnd
          exact hnd.1 (hpj ▸ hjm)
        cases hFq : F q.1 q.2 with
        | none => simp [hFq]
        | some w =>
          show (acc.set q.1 w).getD j 0 = acc.getD j 0
          exact getD_set_ne acc q.1 j w 0 hqne
    · have hmem' : (j, c) ∈ pt := by
        rcases List.mem_cons.mp hmem with h | h
        · exfalso
          exact hpj (by rw [← h])
        · exact h
      have hlen' : j < (match F p.1 p.2 with
          | some q => init.set p.1 q
          | none => init).length := by
        cases hFp : F p.1 p.2 with
        | none => simpa using hj
        | some w => simpa using hj
      exact ih _ j c v (by
          rw [List.map_cons, List.nodup_cons] at hnd
          exact hnd.2) hmem' hF hlen'

/-- Membership of an in-bounds `getD` element. -/
theorem getD_mem' {α : Type} (l : List α) (j : Nat) (d : α) (hj : j < l.length) :
    l.getD j d ∈ l := by
  rw [getD_eq_getElem' l j d hj]
  exact List.getElem_mem hj

/-- For sorted group ids inside a sorted archetype id sequence, the archetype position of the `j`-th group component is at least `j`. -/
theorem index_of_position_ge (gcomps acomps : List ComponentDescriptor)
    (hg : List.Pairwise (fun x y => x < y) (compIds gcomps))
    (ha : List.Pairwise (fun x y => x < y) (compIds acomps))
    (hsub : ∀ c ∈ gcomps, c.component_type_id ∈ compIds acomps) :
    ∀ j, j < gcomps.length →
      j ≤ index_of_comps acomps (gcomps.getD j default).component_type_id := by
  intro j
  induction j with
  | zero =>
    intro _
    exact Nat.zero_le _
  | succ j2 ih =>
    intro hj
    have hj2 : j2 < gcomps.length := by omega
    have h1 := ih hj2
    have hm2 : (gcomps.getD j2 default).component_type_id ∈ compIds acomps :=
      hsub _ (getD_mem' gcomps j2 default hj2)
    have hm3 : (gcomps.getD (j2 + 1) default).component_type_id ∈ compIds acomps :=
      hsub _ (getD_mem' gcomps (j2 + 1) default hj)
    obtain ⟨hp2lt, hp2id, _⟩ := index_of_comps_spec acomps _ hm2
    obtain ⟨hp3lt, hp3id, _⟩ := index_of_comps_spec acomps _ hm3
    have hgid : (gcomps.getD j2 default).component_type_id <
        (gcomps.getD (j2 + 1) default).component_type_id := by
      have h2 := pairwise_getD_lt (compIds gcomps) hg j2 (j2 + 1)
        (by rw [compIds_length]; omega) (by rw [compIds_length]; omega) (by omega)
      rw [compIds_getD _ _ hj2, compIds_getD _ _ hj] at h2
      exact h2
    have hc2 : acomps.length ≤ (compIds acomps).length := by rw [compIds_length]
    have hval : (compIds acomps).getD
          (index_of_comps acomps (gcomps.getD j2 default).component_type_id) 0 <
        (compIds acomps).getD
          (index_of_comps acomps (gcomps.getD (j2 + 1) default).component_type_id) 0 := by
      rw [compIds_getD _ _ hp2lt, compIds_getD _ _ hp3lt, hp2id, hp3id]
      exact hgid
    have hlt := index_lt_of_getD_lt (compIds acomps) ha _ _
      (by rw [compIds_length]; exact hp2lt) (by rw [compIds_length]; exact hp3lt) hval
    omega

/-- The fuzzy pointer array: slot `p` holds the archetype's column pointer at the position of the group's sorted component `p` in the archetype's component list. -/
theorem get_fuzzy_pointers_spec (gcomps acomps : List ComponentDescriptor)
    (aptrs : List Nat)
    (hg : idsStrictSorted (compIds gcomps) = true)
    (ha : idsStrictSorted (compIds acomps) = true)
    (hsub : ∀ c ∈ gcomps, c.component_type_id ∈ compIds acomps)
    (hg14 : gcomps.length ≤ MAX_COMPONENTS_PER_ENTITY) :
    ∀ p, p < gcomps.length →
      (get_fuzzy_pointers_unchecked gcomps acomps aptrs).getD p 0 =
        aptrs.getD (index_of_comps acomps (gcomps.getD p default).component_type_id) 0 := by
  intro p hp
  have hgp := pairwise_of_idsStrictSorted _ hg
  have hap := pairwise_of_idsStrictSorted _ ha
  have hmem : (gcomps.getD p default).component_type_id ∈ compIds acomps :=
    hsub _ (getD_mem' gcomps p default hp)
  obtain ⟨hplt, hpid, hpbefore⟩ := index_of_comps_spec acomps _ hmem
  have hge := index_of_position_ge gcomps acomps hgp hap hsub p hp
  have hmempair : (p, gcomps.getD p default) ∈ gcomps.enum := by
    have h0 := mem_enumFrom_getD gcomps p 0 hp
    rw [Nat.zero_add] at h0
    exact h0
  unfold get_fuzzy_pointers_unchecked
  exact fuzzy_fold_getD
    (fun i c => searchFrom acomps aptrs c.component_type_id i (acomps.length - i))
    gcomps.enum _ p (gcomps.getD p default) _
    (by rw [List.enum_map_fst]; exact List.nodup_range _)
    hmempair
    (searchFrom_finds acomps aptrs _ _ hplt hpid hpbefore (acomps.length - p) p hge rfl)
    (by simp; omega)

/-- Claim C7: for a valid group whose descriptor is a subset of the archetype's, the fuzzy slice extraction hands back, at every caller position `j`, the slice based at the archetype's column pointer `A.pointers[A.descriptor.index_of(T::ID)]` of the group's component `T` at that caller position, with length `entity_count`. -/
theorem get_fuzzy_slices_spec (ad : ArchetypeDescriptor)
    (gcomps : List ComponentDescriptor) (aptrs : List Nat) (perm : List Nat)
    (entity_count : Nat)
    (hg : idsStrictSorted (compIds gcomps) = true)
    (ha : idsStrictSorted (compIds ad.components) = true)
    (hsub : ∀ c ∈ gcomps, c.component_type_id ∈ compIds ad.components)
    (hg14 : gcomps.length ≤ MAX_COMPONENTS_PER_ENTITY)
    (hpb : ∀ j, j < perm.length → perm.getD j 0 < gcomps.length) :
    ∀ j, j < perm.length →
      (get_fuzzy_slices_unchecked gcomps ad.components aptrs perm
        entity_count).getD j (0, 0) =
        (aptrs.getD
          (ad.index_of (gcomps.getD (perm.getD j 0) default).component_type_id) 0,
         entity_count) := by
  intro j hj
  show (perm.map (fun p =>
      ((get_fuzzy_pointers_unchecked gcomps ad.components aptrs).getD p 0,
        entity_count))).getD j (0, 0) = _
  rw [getD_map_lt _ perm j (0, 0) 0 hj]
  rw [get_fuzzy_pointers_spec gcomps ad.components aptrs hg ha hsub hg14
    (perm.getD j 0) (hpb j hj)]
  rfl

/-- Witness: `get_fuzzy_slices_spec` applied to the group `(C, A)` over an archetype with components `(A, B, C)` and concrete column pointers. -/
theorem get_fuzzy_slices_spec_witness :
    idsStrictSorted (compIds [compA, compC]) = true ∧
    idsStrictSorted (compIds (⟨[compA, compB, compC]⟩ : ArchetypeDescriptor).components) =
      true ∧
    (∀ j, j < ([1, 0] : List Nat).length →
      (get_fuzzy_slices_unchecked [compA, compC]
        (⟨[compA, compB, compC]⟩ : ArchetypeDescriptor).components [111, 222, 333]
        [1, 0] 5).getD j (0, 0) =
        ([111, 222, 333].getD
          ((⟨[compA, compB, compC]⟩ : ArchetypeDescriptor).index_of
            (([compA, compC].getD (([1, 0] : List Nat).getD j 0) default)).component_type_id)
          0,
         5)) :=
  ⟨by decide, by decide,
    get_fuzzy_slices_spec ⟨[compA, compB, compC]⟩ [compA, compC] [111, 222, 333] [1, 0] 5
      (by decide) (by decide) (by decide) (by decide) (by decide)⟩

/-- First components of `enumFrom` pairs lie in the enumerated range. -/
theorem enumFrom_fst_bounds (l : List ComponentDescriptor) :
    ∀ (s : Nat) (p : Nat × ComponentDescriptor), p ∈ List.enumFrom s l →
      s ≤ p.1 ∧ p.1 < s + l.length := by
  induction l with
  | nil =>
    intro s p hp
    simp at hp
  | cons a t ih =>
    intro s p hp
    rw [List.enumFrom_cons] at hp
    rcases List.mem_cons.mp hp with h | h
    · subst h
      refine ⟨Nat.le_refl s, ?_⟩
      show s < s + (a :: t).length
      rw [List.length_cons]
      omega
    · have := ih (s + 1) p h
      have hl : (a :: t).length = t.length + 1 := rfl
      constructor <;> omega

/-- The inner loop of `copy_common_components` preserves buffer counts. -/
theorem copyInner_length (scid : Nat) (src : List Nat) (di : Nat) :
    ∀ (l : List ComponentDescriptor) (s : Nat) (cols : List (List Nat)),
      ((List.enumFrom s l).foldl (fun cols2 (dp : Nat × ComponentDescriptor) =>
        if scid = dp.2.component_type_id then
          cols2.set dp.1 (writeBytes (cols2.getD dp.1 []) (dp.2.size * di) src)
        else cols2) cols).length = cols.length := by
  intro l
  induction l with
  | nil =>
    intro s cols
    rfl
  | cons a t ih =>
    intro s cols
    rw [List.enumFrom_cons, List.foldl_cons, ih (s + 1)]
    show (if scid = a.component_type_id then
        cols.set s (writeBytes (cols.getD s []) (a.size * di) src)
      else cols).length = cols.length
    by_cases h : scid = a.component_type_id
    · rw [if_pos h]
      simp
    · rw [if_neg h]

/-- The inner loop of `copy_common_components` only writes within its index range. -/
theorem copyInner_preserve (scid : Nat) (src : List Nat) (di : Nat)
    (l : List ComponentDescriptor) (s : Nat) (cols : List (List Nat)) (j : Nat)
    (hj : j < s ∨ s + l.length ≤ j) :
    ((List.enumFrom s l).foldl (fun cols2 (dp : Nat × ComponentDescriptor) =>
      if scid = dp.2.component_type_id then
        cols2.set dp.1 (writeBytes (cols2.getD dp.1 []) (dp.2.size * di) src)
      else cols2) cols).getD j [] = cols.getD j [] := by
  apply foldl_preserve_getD
  intro acc p hp
  have hb := enumFrom_fst_bounds l s p hp
  have hne : p.1 ≠ j := by omega
  show (if scid = p.2.component_type_id then
      acc.set p.1 (writeBytes (acc.getD p.1 []) (p.2.size * di) src)
    else acc).getD j [] = acc.getD j []
  by_cases h : scid = p.2.component_type_id
  · rw [if_pos h]
    exact getD_set_ne _ _ _ _ _ hne
  · rw [if_neg h]

/-- The inner loop of `copy_common_components`, pointwise at an enumerated slot: the destination column receives one row's copy exactly when its id matches the source component's. -/
theorem copyInner_getD (scid : Nat) (src : List Nat) (di : Nat) :
    ∀ (l : List ComponentDescriptor) (s : Nat) (cols : List (List Nat)) (t : Nat),
      t < l.length → s + t < cols.length →
      ((List.enumFrom s l).foldl (fun cols2 (dp : Nat × ComponentDescriptor) =>
        if scid = dp.2.component_type_id then
          cols2.set dp.1 (writeBytes (cols2.getD dp.1 []) (dp.2.size * di) src)
        else cols2) cols).getD (s + t) [] =
      (if scid = (l.getD t default).component_type_id then
        writeBytes (cols.getD (s + t) []) ((l.getD t default).size * di) src
      else cols.getD (s + t) []) := by
  intro l
  induction l with
  | nil =>
    intro s cols t ht _
    simp at ht
  | cons a tl ih =>
    intro s cols t ht hb
    rw [List.enumFrom_cons, List.foldl_cons]
    have hstep : (if scid = (s, a).2.component_type_id then
        cols.set (s, a).1 (writeBytes (cols.getD (s, a).1 []) ((s, a).2.size * di) src)
      else cols) =
        (if scid = a.component_type_id then
          cols.set s (writeBytes (cols.getD s []) (a.size * di) src)
        else cols) := rfl
    rw [hstep]
    cases t with
    | zero =>
      simp only [Nat.add_zero] at hb ⊢
      rw [copyInner_preserve scid src di tl (s + 1) _ s (Or.inl (by omega)),
        List.getD_cons_zero]
      by_cases h : scid = a.component_type_id
      · rw [if_pos h, if_pos h]
        exact getD_set_self _ _ _ _ hb
      · rw [if_neg h, if_neg h]
    | succ t2 =>
      have harith : s + (t2 + 1) = (s + 1) + t2 := by omega
      rw [harith, List.getD_cons_succ]
      by_cases h : scid = a.component_type_id
      · rw [if_pos h]
        rw [ih (s + 1) _ t2 (by simpa using ht) (by simp; omega)]
        rw [getD_set_ne _ s ((s + 1) + t2) _ [] (by omega)]
      · rw [if_neg h]
        exact ih (s + 1) cols t2 (by simpa using ht) (by omega)

/-- The outer loop of `copy_common_components` leaves a destination column untouched when no source component in the remaining list matches its id. -/
theorem copyOuter_nomatch (srccols : List (List Nat)) (si di : Nat)
    (dcomps : List ComponentDescriptor) (j : Nat) :
    ∀ (l : List ComponentDescriptor) (s : Nat) (cols : List (List Nat)),
      (∀ c ∈ l, c.component_type_id ≠ (dcomps.getD j default).component_type_id) →
      j < dcomps.length → j < cols.length →
      ((List.enumFrom s l).foldl (fun cols (sp : Nat × ComponentDescriptor) =>
        (List.enumFrom 0 dcomps).foldl (fun cols2 (dp : Nat × ComponentDescriptor) =>
          if sp.2.component_type_id = dp.2.component_type_id then
            cols2.set dp.1 (writeBytes (cols2.getD dp.1 []) (dp.2.size * di)
              (bytesAt (srccols.getD sp.1 []) (sp.2.size * si) sp.2.size))
          else cols2) cols) cols).getD j [] = cols.getD j [] := by
  intro l
  induction l with
  | nil =>
    intro s cols _ _ _
    rfl
  | cons c tl ih =>
    intro s cols hno hj hjc
    rw [List.enumFrom_cons, List.foldl_cons]
    have hstep : (List.enumFrom 0 dcomps).foldl (fun cols2 (dp : Nat × ComponentDescriptor) =>
        if (s, c).2.component_type_id = dp.2.component_type_id then
          cols2.set dp.1 (writeBytes (cols2.getD dp.1 []) (dp.2.size * di)
            (bytesAt (srccols.getD (s, c).1 []) ((s, c).2.size * si) (s, c).2.size))
        else cols2) cols =
        (List.enumFrom 0 dcomps).foldl (fun cols2 (dp : Nat × ComponentDescriptor) =>
          if c.component_type_id = dp.2.component_type_id then
            cols2.set dp.1 (writeBytes (cols2.getD dp.1 []) (dp.2.size * di)
              (bytesAt (srccols.getD s []) (c.size * si) c.size))
          else cols2) cols := rfl
    rw [hstep]
    rw [ih (s + 1) _ (fun c' hc' => hno c' (List.mem_cons_of_mem _ hc')) hj
      (by rw [copyInner_length]; exact hjc)]
    have hinner := copyInner_getD c.component_type_id
      (bytesAt (srccols.getD s []) (c.size * si) c.size) di dcomps 0 cols j hj
      (by simpa using hjc)
    simp only [Nat.zero_add] at hinner
    rw [hinner, if_neg (hno c (List.mem_cons_self c tl))]

/-- The outer loop of `copy_common_components` writes a destination column exactly once when a source component matches its id: one row's worth of the matching source column's bytes. -/
theorem copyOuter_match (srccols : List (List Nat)) (si di : Nat)
    (dcomps : List ComponentDescriptor) (j : Nat) :
    ∀ (l : List ComponentDescriptor) (s : Nat) (cols : List (List Nat)) (t : Nat),
      (compIds l).Nodup →
      t < l.length →
      (l.getD t default).component_type_id = (dcomps.getD j default).component_type_id →
      j < dcomps.length → j < cols.length →
      ((List.enumFrom s l).foldl (fun cols (sp : Nat × ComponentDescriptor) =>
        (List.enumFrom 0 dcomps).foldl (fun cols2 (dp : Nat × ComponentDescriptor) =>
          if sp.2.component_type_id = dp.2.component_type_id then
            cols2.set dp.1 (writeBytes (cols2.getD dp.1 []) (dp.2.size * di)
              (bytesAt (srccols.getD sp.1 []) (sp.2.size * si) sp.2.size))
          else cols2) cols) cols).getD j [] =
      writeBytes (cols.getD j []) ((dcomps.getD j default).size * di)
        (bytesAt (srccols.getD (s + t) []) ((l.getD t default).size * si)
          (l.getD t default).size) := by
  intro l
  induction l with
  | nil =>
    intro s cols t _ ht _ _ _
    simp at ht
  | cons c tl ih =>
    intro s cols t hnd ht hmatch hj hjc
    have hndc : c.component_type_id ∉ compIds tl := by
      unfold compIds at hnd ⊢
      rw [List.map_cons, List.nodup_cons] at hnd
      exact hnd.1
    have hndtl : (compIds tl).Nodup := by
      unfold compIds at hnd ⊢
      rw [List.map_cons, List.nodup_cons] at hnd
      exact hnd.2
    rw [List.enumFrom_cons, List.foldl_cons]
    have hstep : (List.enumFrom 0 dcomps).foldl (fun cols2 (dp : Nat × ComponentDescriptor) =>
        if (s, c).2.component_type_id = dp.2.component_type_id then
          cols2.set dp.1 (writeBytes (cols2.getD dp.1 []) (dp.2.size * di)
            (bytesAt (srccols.getD (s, c).1 []) ((s, c).2.size * si) (s, c).2.size))
        else cols2) cols =
        (List.enumFrom 0 dcomps).foldl (fun cols2 (dp : Nat × ComponentDescriptor) =>
          if c.component_type_id = dp.2.component_type_id then
            cols2.set dp.1 (writeBytes (cols2.getD dp.1 []) (dp.2.size * di)
              (bytesAt (srccols.getD s []) (c.size * si) c.size))
          else cols2) cols := rfl
    rw [hstep]
    have hinner := copyInner_getD c.component_type_id
      (bytesAt (srccols.getD s []) (c.size * si) c.size) di dcomps 0 cols j hj
      (by simpa using hjc)
    simp only [Nat.zero_add] at hinner
    cases t with
    | zero =>
      rw [List.getD_cons_zero] at hmatch
      have hno : ∀ c' ∈ tl, c'.component_type_id ≠
          (dcomps.getD j default).component_type_id := by
        intro c' hc' hcontr
        exact hndc (by
          rw [hmatch, ← hcontr]
          unfold compIds
          exact List.mem_map.mpr ⟨c', hc', rfl⟩)
      rw [copyOuter_nomatch srccols si di dcomps j tl (s + 1) _ hno hj
        (by rw [copyInner_length]; exact hjc)]
      rw [hinner, if_pos hmatch, List.getD_cons_zero, Nat.add_zero]
    | succ t2 =>
      have ht2 : t2 < tl.length := by simpa using ht
      rw [List.getD_cons_succ] at hmatch
      have hne : c.component_type_id ≠ (dcomps.getD j default).component_type_id := by
        intro hcontr
        exact hndc (by
          rw [hcontr, ← hmatch]
          unfold compIds
          exact List.mem_map.mpr ⟨tl.getD t2 default, getD_mem' tl t2 default ht2, rfl⟩)
      rw [ih (s + 1) _ t2 hndtl ht2 hmatch hj (by rw [copyInner_length]; exact hjc)]
      rw [hinner, if_neg hne, List.getD_cons_succ,
        (by omega : (s + 1) + t2 = s + (t2 + 1))]

/-- Columns of `copy_common_components` as the nested enumerated fold. -/
theorem copy_common_columns_eq (source : Archetype) (source_index : Nat)
    (destination : Archetype) (destination_index : Nat) :
    (Archetype.copy_common_components_between_archetypes_unchecked source source_index
      destination destination_index).columns =
      (List.enumFrom 0 source.descriptor.components).foldl
        (fun cols (sp : Nat × ComponentDescriptor) =>
          (List.enumFrom 0 destination.descriptor.components).foldl
            (fun cols2 (dp : Nat × ComponentDescriptor) =>
              if sp.2.component_type_id = dp.2.component_type_id then
                cols2.set dp.1 (writeBytes (cols2.getD dp.1 [])
                  (dp.2.size * destination_index)
                  (bytesAt (source.columns.getD sp.1 []) (sp.2.size * source_index)
                    sp.2.size))
              else cols2) cols) destination.columns := rfl

/-- Copying common components leaves the destination descriptor unchanged. -/
theorem copy_common_descriptor (source : Archetype) (source_index : Nat)
    (destination : Archetype) (destination_index : Nat) :
    (Archetype.copy_common_components_between_archetypes_unchecked source source_index
      destination destination_index).descriptor = destination.descriptor := rfl

/-- Copying common components leaves the destination metadata unchanged. -/
theorem copy_common_metadata (source : Archetype) (source_index : Nat)
    (destination : Archetype) (destination_index : Nat) :
    (Archetype.copy_common_components_between_archetypes_unchecked source source_index
      destination destination_index).entity_metadata = destination.entity_metadata := rfl

/-- Copying common components leaves the destination's column component descriptors unchanged. -/
theorem copy_common_comp (source : Archetype) (source_index : Nat)
    (destination : Archetype) (destination_index : Nat) (c : Nat) :
    (Archetype.copy_common_components_between_archetypes_unchecked source source_index
      destination destination_index).comp c = destination.comp c := rfl

/-- Behaviour of `copy_common_components` on well-formed archetypes with sorted source ids: every component type present in both descriptors becomes bytewise equal between the source row and the destination row, and every destination column whose type is absent from the source is untouched. -/
theorem copy_common_spec (source destination : Archetype) (si di : Nat)
    (hswf : source.wf) (hdwf : destination.wf)
    (hsi : si < source.capacity) (hdi : di < destination.capacity)
    (hs : idsStrictSorted (compIds source.descriptor.components) = true)
    (hsizes : ∀ i j, i < source.descriptor.components.length →
      j < destination.descriptor.components.length →
      (source.descriptor.components.getD i default).component_type_id =
        (destination.descriptor.components.getD j default).component_type_id →
      (source.descriptor.components.getD i default).size =
        (destination.descriptor.components.getD j default).size) :
    (∀ i j, i < source.descriptor.components.length →
      j < destination.descriptor.components.length →
      (source.descriptor.components.getD i default).component_type_id =
        (destination.descriptor.components.getD j default).component_type_id →
      (Archetype.copy_common_components_between_archetypes_unchecked source si
        destination di).rowBytes j di = source.rowBytes i si) ∧
    (∀ j, j < destination.descriptor.components.length →
      (∀ i, i < source.descriptor.components.length →
        (source.descriptor.components.getD i default).component_type_id ≠
          (destination.descriptor.components.getD j default).component_type_id) →
      (Archetype.copy_common_components_between_archetypes_unchecked source si
        destination di).columns.getD j [] = destination.columns.getD j []) := by
  obtain ⟨hsclen, hsmlen, hscnt, hscols, hssz⟩ := hswf
  obtain ⟨hdclen, hdmlen, hdcnt, hdcols, hdsz⟩ := hdwf
  have hnd : (compIds source.descriptor.components).Nodup :=
    (pairwise_of_idsStrictSorted _ hs).imp (fun h => Nat.ne_of_lt h)
  constructor
  · intro i j hi hj hid
    have hmatch := copyOuter_match source.columns si di destination.descriptor.components j
      source.descriptor.components 0 destination.columns i hnd hi hid hj (by omega)
    simp only [Nat.zero_add] at hmatch
    rw [rowBytes_eq, rowBytes_eq, copy_common_comp, comp_spec, comp_spec]
    show bytesAt ((Archetype.copy_common_components_between_archetypes_unchecked source si
        destination di).columns.getD j [])
        ((destination.descriptor.components.getD j default).size * di)
        (destination.descriptor.components.getD j default).size =
      bytesAt (source.columns.getD i [])
        ((source.descriptor.components.getD i default).size * si)
        (source.descriptor.components.getD i default).size
    rw [copy_common_columns_eq, hmatch]
    apply bytesAt_writeBytes_self'
    · rw [bytesAt_length]
      · exact hsizes i j hi hj hid
      · rw [hscols i hi]
        have hm : (source.descriptor.components.getD i default).size * si +
            (source.descriptor.components.getD i default).size =
            (source.descriptor.components.getD i default).size * (si + 1) :=
          (Nat.mul_succ _ _).symm
        rw [hm, Nat.mul_comm source.capacity]
        exact Nat.mul_le_mul_left _ (by omega)
    · rw [hdcols j hj]
      have hm : (destination.descriptor.components.getD j default).size * di +
          (destination.descriptor.components.getD j default).size =
          (destination.descriptor.components.getD j default).size * (di + 1) :=
        (Nat.mul_succ _ _).symm
      rw [hm, Nat.mul_comm destination.capacity]
      exact Nat.mul_le_mul_left _ (by omega)
  · intro j hj hno
    rw [copy_common_columns_eq]
    apply copyOuter_nomatch source.columns si di destination.descriptor.components j
      source.descriptor.components 0 destination.columns _ hj (by omega)
    intro c hc hcontr
    obtain ⟨u, hu, hcu⟩ := List.mem_iff_getElem.mp hc
    have hcu' : source.descriptor.components.getD u default = c := by
      rw [getD_eq_getElem' _ u default hu]
      exact hcu
    exact hno u hu (by rw [hcu', hcontr])

/-- Writing a row leaves the column component descriptors unchanged. -/
theorem write_entity_comp (a : Archetype) (index : Nat) (m : EntityMetadata)
    (gcomps : List ComponentDescriptor) (g : GroupValue) (c : Nat) :
    (a.write_entity_unchecked index m gcomps g).comp c = a.comp c := rfl

/-- The outer loop of `copy_common_components` preserves buffer counts. -/
theorem copyOuter_length (srccols : List (List Nat)) (si di : Nat)
    (dcomps : List ComponentDescriptor) :
    ∀ (l : List ComponentDescriptor) (s : Nat) (cols : List (List Nat)),
      ((List.enumFrom s l).foldl (fun cols (sp : Nat × ComponentDescriptor) =>
        (List.enumFrom 0 dcomps).foldl (fun cols2 (dp : Nat × ComponentDescriptor) =>
          if sp.2.component_type_id = dp.2.component_type_id then
            cols2.set dp.1 (writeBytes (cols2.getD dp.1 []) (dp.2.size * di)
              (bytesAt (srccols.getD sp.1 []) (sp.2.size * si) sp.2.size))
          else cols2) cols) cols).length = cols.length := by
  intro l
  induction l with
  | nil =>
    intro s cols
    rfl
  | cons c tl ih =>
    intro s cols
    rw [List.enumFrom_cons, List.foldl_cons]
    have hstep : (List.enumFrom 0 dcomps).foldl (fun cols2 (dp : Nat × ComponentDescriptor) =>
        if (s, c).2.component_type_id = dp.2.component_type_id then
          cols2.set dp.1 (writeBytes (cols2.getD dp.1 []) (dp.2.size * di)
            (bytesAt (srccols.getD (s, c).1 []) ((s, c).2.size * si) (s, c).2.size))
        else cols2) cols =
        (List.enumFrom 0 dcomps).foldl (fun cols2 (dp : Nat × ComponentDescriptor) =>
          if c.component_type_id = dp.2.component_type_id then
            cols2.set dp.1 (writeBytes (cols2.getD dp.1 []) (dp.2.size * di)
              (bytesAt (srccols.getD s []) (c.size * si) c.size))
          else cols2) cols := rfl
    rw [hstep, ih (s + 1), copyInner_length]

/-- Adding a component whose id precedes every id of a short-enough descriptor prepends it. -/
theorem add_component_min (d : ArchetypeDescriptor) (c : ComponentDescriptor)
    (hlen : d.components.length + 1 ≤ MAX_COMPONENTS_PER_ENTITY)
    (hlt : ∀ x ∈ d.components, c.component_type_id < x.component_type_id) :
    d.add_component c = some ⟨c :: d.components⟩ := by
  unfold ArchetypeDescriptor.add_component
  rw [if_neg (by omega)]
  have hnc : ¬ ((compIds d.components).contains c.component_type_id = true) := by
    intro h
    have hm : c.component_type_id ∈ compIds d.components := by simpa using h
    obtain ⟨x, hx, hxid⟩ := List.mem_map.mp hm
    have := hlt x hx
    omega
  rw [if_neg hnc]
  cases hcomps : d.components with
  | nil => rfl
  | cons x t =>
    have hx : c.component_type_id < x.component_type_id := by
      apply hlt
      rw [hcomps]
      exact List.mem_cons_self x t
    rw [insertSorted, if_pos hx]

/-- Claim C9 (amended): `copy_common_components` makes every component type present in both descriptors bytewise equal between the source row and the destination row and leaves every destination column whose type is absent from the source unchanged. The transition that derives the destination descriptor by `add_component(c)` and follows the copy with `write_entity` of the singleton group containing `c` produces the claimed combined state provided `c`'s id precedes every id of the source descriptor (the positional singleton write lands in the destination's first column, which then is `c`'s): every component of the source is bytewise equal between the two rows, the destination row additionally holds `c`'s bytes, and the metadata slot holds the written handle. -/
theorem copy_common_components_transition_spec :
    (∀ (source destination : Archetype) (si di : Nat),
      source.wf → destination.wf → si < source.capacity → di < destination.capacity →
      idsStrictSorted (compIds source.descriptor.components) = true →
      (∀ i j, i < source.descriptor.components.length →
        j < destination.descriptor.components.length →
        (source.descriptor.components.getD i default).component_type_id =
          (destination.descriptor.components.getD j default).component_type_id →
        (source.descriptor.components.getD i default).size =
          (destination.descriptor.components.getD j default).size) →
      (∀ i j, i < source.descriptor.components.length →
        j < destination.descriptor.components.length →
        (source.descriptor.components.getD i default).component_type_id =
          (destination.descriptor.components.getD j default).component_type_id →
        (Archetype.copy_common_components_between_archetypes_unchecked source si
          destination di).rowBytes j di = source.rowBytes i si) ∧
      (∀ j, j < destination.descriptor.components.length →
        (∀ i, i < source.descriptor.components.length →
          (source.descriptor.components.getD i default).component_type_id ≠
            (destination.descriptor.components.getD j default).component_type_id) →
        (Archetype.copy_common_components_between_archetypes_unchecked source si
          destination di).columns.getD j [] = destination.columns.getD j [])) ∧
    (∀ (source destination : Archetype) (c : ComponentDescriptor) (si di : Nat)
      (m : EntityMetadata) (cbytes : List Nat),
      source.wf → destination.wf → si < source.capacity → di < destination.capacity →
      idsStrictSorted (compIds source.descriptor.components) = true →
      source.descriptor.components.length + 1 ≤ MAX_COMPONENTS_PER_ENTITY →
      (∀ x ∈ source.descriptor.components, c.component_type_id < x.component_type_id) →
      destination.descriptor.components = c :: source.descriptor.components →
      cbytes.length = c.size →
      source.descriptor.add_component c = some ⟨c :: source.descriptor.components⟩ ∧
      (∀ i, i < source.descriptor.components.length →
        ((Archetype.copy_common_components_between_archetypes_unchecked source si
            destination di).write_entity_unchecked di m [c]
            ⟨[0], [cbytes]⟩).rowBytes (i + 1) di = source.rowBytes i si) ∧
      ((Archetype.copy_common_components_between_archetypes_unchecked source si
          destination di).write_entity_unchecked di m [c]
          ⟨[0], [cbytes]⟩).rowBytes 0 di = cbytes ∧
      ((Archetype.copy_common_components_between_archetypes_unchecked source si
          destination di).write_entity_unchecked di m [c]
          ⟨[0], [cbytes]⟩).entity_metadata.getD di default = m) := by
  constructor
  · intro source destination si di hswf hdwf hsi hdi hs hsizes
    exact copy_common_spec source destination si di hswf hdwf hsi hdi hs hsizes
  · intro source destination c si di m cbytes hswf hdwf hsi hdi hs hlen hlt hdcomps hcb
    have hdlen : destination.descriptor.components.length =
        source.descriptor.components.length + 1 := by
      rw [hdcomps]
      rfl
    have hsizes : ∀ i j, i < source.descriptor.components.length →
        j < destination.descriptor.components.length →
        (source.descriptor.components.getD i default).component_type_id =
          (destination.descriptor.components.getD j default).component_type_id →
        (source.descriptor.components.getD i default).size =
          (destination.descriptor.components.getD j default).size := by
      intro i' j' hi' hj' hideq
      cases j' with
      | zero =>
        exfalso
        rw [hdcomps, List.getD_cons_zero] at hideq
        have := hlt (source.descriptor.components.getD i' default)
          (getD_mem' _ i' default hi')
        omega
      | succ j2 =>
        rw [hdcomps, List.getD_cons_succ] at hideq ⊢
        have hj2 : j2 < source.descriptor.components.length := by omega
        have hp := pairwise_of_idsStrictSorted _ hs
        have hij : i' = j2 := by
          rcases Nat.lt_trichotomy i' j2 with h | h | h
          · have h2 := pairwise_getD_lt _ hp i' j2 (by rw [compIds_length]; omega)
              (by rw [compIds_length]; omega) h
            rw [compIds_getD _ _ hi', compIds_getD _ _ hj2] at h2
            omega
          · exact h
          · have h2 := pairwise_getD_lt _ hp j2 i' (by rw [compIds_length]; omega)
              (by rw [compIds_length]; omega) h
            rw [compIds_getD _ _ hj2, compIds_getD _ _ hi'] at h2
            omega
        rw [hij]
    have hAB := copy_common_spec source destination si di hswf hdwf hsi hdi hs hsizes
    have hdwf2 := hdwf
    obtain ⟨hdclen, hdmlen, hdcnt, hdcols, hdsz⟩ := hdwf2
    have hKlen : (Archetype.copy_common_components_between_archetypes_unchecked source si
        destination di).columns.length = destination.columns.length := by
      rw [copy_common_columns_eq]
      exact copyOuter_length source.columns si di destination.descriptor.components
        source.descriptor.components 0 destination.columns
    have hone : ([c] : List ComponentDescriptor).length = 1 := rfl
    refine ⟨add_component_min source.descriptor c hlen hlt, ?_, ?_, ?_⟩
    · intro i hi
      have hj1 : i + 1 < destination.descriptor.components.length := by omega
      have hid : (source.descriptor.components.getD i default).component_type_id =
          (destination.descriptor.components.getD (i + 1) default).component_type_id := by
        rw [hdcomps, List.getD_cons_succ]
      have hKrow := hAB.1 i (i + 1) hi hj1 hid
      rw [rowBytes_eq, copy_common_comp, comp_spec] at hKrow
      rw [rowBytes_eq, write_entity_comp, copy_common_comp, comp_spec,
        write_entity_columns_eq, updateCols_getD,
        if_pos (by rw [hKlen]; omega : i + 1 <
          (Archetype.copy_common_components_between_archetypes_unchecked source si
            destination di).columns.length),
        if_neg (by omega : ¬ i + 1 < ([c] : List ComponentDescriptor).length)]
      exact hKrow
    · rw [rowBytes_eq, write_entity_comp, copy_common_comp, comp_spec, hdcomps,
        List.getD_cons_zero, write_entity_columns_eq, updateCols_getD,
        if_pos (by rw [hKlen]; omega : 0 <
          (Archetype.copy_common_components_between_archetypes_unchecked source si
            destination di).columns.length),
        if_pos (by omega : 0 < ([c] : List ComponentDescriptor).length)]
      have hptr : ((⟨[0], [cbytes]⟩ : GroupValue).as_sorted_pointers).getD 0 [] = cbytes := by
        have h := as_sorted_pointers_getD ⟨[0], [cbytes]⟩ 0
          (by show ([0] : List Nat).Nodup; decide) rfl
          (by show (0 : Nat) < ([0] : List Nat).length; decide)
          (by show ([0] : List Nat).getD 0 0 < MAX_COMPONENTS_PER_ENTITY; decide)
        simpa using h
      have hgd : (([c] : List ComponentDescriptor).getD 0 default) = c := rfl
      rw [hgd, hptr]
      have htake : cbytes.take c.size = cbytes := by
        rw [← hcb]
        exact List.take_length cbytes
      rw [htake]
      have hK0 : (Archetype.copy_common_components_between_archetypes_unchecked source si
          destination di).columns.getD 0 [] = destination.columns.getD 0 [] := by
        apply hAB.2 0 (by omega)
        intro i hi hcontr
        rw [hdcomps, List.getD_cons_zero] at hcontr
        have := hlt (source.descriptor.components.getD i default)
          (getD_mem' _ i default hi)
        omega
      rw [hK0]
      apply bytesAt_writeBytes_self' _ _ _ _ hcb
      have hd0 : (destination.columns.getD 0 []).length = destination.capacity * c.size := by
        have := hdcols 0 (by omega)
        rw [hdcomps, List.getD_cons_zero] at this
        exact this
      rw [hd0]
      have hm2 : c.size * di + c.size = c.size * (di + 1) := (Nat.mul_succ _ _).symm
      rw [hm2, Nat.mul_comm destination.capacity]
      exact Nat.mul_le_mul_left _ (by omega)
    · rw [write_entity_metadata, copy_common_metadata]
      exact getD_set_self _ di m default (by rw [hdmlen]; omega)

/-- Claim C9, counterexample to the transition clause as stated: deriving the destination by adding `compC` (id 3, after `compA`'s id 1) and following `copy_common_components` with `write_entity` of the singleton group containing `compC` does not leave the source's component `compA` bytewise equal between the rows: the positional singleton write lands in destination column 0 (the `compA` column) and destroys the copied value. -/
theorem transition_singleton_write_clobbers :
    srcSmall.wf ∧ dstSmall.wf ∧
    srcSmall.descriptor.add_component compC = some dstSmall.descriptor ∧
    (Archetype.copy_common_components_between_archetypes_unchecked srcSmall 0 dstSmall
        0).rowBytes 0 0 = srcSmall.rowBytes 0 0 ∧
    ¬ ((Archetype.copy_common_components_between_archetypes_unchecked srcSmall 0 dstSmall
        0).write_entity_unchecked 0 ⟨9⟩ [compC] ⟨[0], [[7, 8]]⟩).rowBytes 0 0 =
      srcSmall.rowBytes 0 0 := by
  refine ⟨?_, ?_, rfl, by decide, by decide⟩
  · unfold Archetype.wf
    decide
  · unfold Archetype.wf
    decide

/-- Witness: `copy_common_components_transition_spec` applied to concrete archetypes, both for a plain copy (source `(A)`, destination `(A, C)`) and for the added-component transition with the minimal-id component `compZ` (source `(A)`, destination `(Z, A)`). -/
theorem copy_common_components_transition_spec_witness :
    (Archetype.copy_common_components_between_archetypes_unchecked srcSmall 0 dstSmall
        0).rowBytes 0 0 = srcSmall.rowBytes 0 0 ∧
    (Archetype.copy_common_components_between_archetypes_unchecked srcSmall 0 dstSmall
        0).columns.getD 1 [] = dstSmall.columns.getD 1 [] ∧
    srcSmall.descriptor.add_component compZ =
      some ⟨compZ :: srcSmall.descriptor.components⟩ ∧
    ((Archetype.copy_common_components_between_archetypes_unchecked srcSmall 0 dstMin
        0).write_entity_unchecked 0 ⟨9⟩ [compZ] ⟨[0], [[7, 8]]⟩).rowBytes 1 0 =
      srcSmall.rowBytes 0 0 ∧
    ((Archetype.copy_common_components_between_archetypes_unchecked srcSmall 0 dstMin
        0).write_entity_unchecked 0 ⟨9⟩ [compZ] ⟨[0], [[7, 8]]⟩).rowBytes 0 0 = [7, 8] ∧
    ((Archetype.copy_common_components_between_archetypes_unchecked srcSmall 0 dstMin
        0).write_entity_unchecked 0 ⟨9⟩ [compZ]
        ⟨[0], [[7, 8]]⟩).entity_metadata.getD 0 default = ⟨9⟩ :=
  have hswf : srcSmall.wf := by unfold Archetype.wf; decide
  have hdwf : dstSmall.wf := by unfold Archetype.wf; decide
  have hmwf : dstMin.wf := by unfold Archetype.wf; decide
  have h1 := copy_common_components_transition_spec.1 srcSmall dstSmall 0 0 hswf hdwf
    (by decide) (by decide) (by decide)
    (by
      intro i j hi hj hid
      have hsl : srcSmall.descriptor.components.length = 1 := rfl
      have hdl : dstSmall.descriptor.components.length = 2 := rfl
      have hi0 : i = 0 := by omega
      have hj01 : j = 0 ∨ j = 1 := by omega
      subst hi0
      rcases hj01 with h | h <;> subst h
      · decide
      · exact absurd hid (by decide))
  have h2 := copy_common_components_transition_spec.2 srcSmall dstMin compZ 0 0 ⟨9⟩ [7, 8]
    hswf hmwf (by decide) (by decide) (by decide) (by decide) (by decide) rfl (by decide)
  ⟨h1.1 0 0 (by decide) (by decide) (by decide),
   h1.2 1 (by decide) (by decide),
   h2.1, h2.2.1 0 (by decide), h2.2.2.1, h2.2.2.2⟩

/-- Claim C1: for descriptors of every arity 1 to `MAX_COMPONENTS_PER_ENTITY` the lookup's bucket index is claimed to stay within the bounds of `sorted_mappings`. The evaluation below shows the code violates this at arity 14: the descriptor is valid and passes the `len > MAX_COMPONENTS_PER_ENTITY` guard, yet `sorted_mappings[len]` indexes the fourteen-element bucket array at 14, so `find_archetype` panics instead of returning an `Option`. -/
theorem find_archetype_panics_at_arity_fourteen :
    descFourteen.is_valid = true ∧
    descFourteen.len = MAX_COMPONENTS_PER_ENTITY ∧
    ArchetypeRegistry.emptyRegistry.sorted_mappings.length = MAX_COMPONENTS_PER_ENTITY ∧
    ArchetypeRegistry.emptyRegistry.find_archetype descFourteen = Except.error () := by
  refine ⟨by decide, by decide, by decide, rfl⟩

/-- Claim C10: `find_or_create_archetype_adding_component` is claimed to return `None` whenever the source index is at least the length of the archetype sequence. The evaluation below shows the code's range check uses `>` instead of `>=`: on the empty registry, source index 0 equals the length, slips past the check, and the ensuing `get_unchecked_mut` reads out of bounds (a panic / undefined behaviour) instead of producing `None`. -/
theorem adding_component_range_check_off_by_one :
    ArchetypeRegistry.emptyRegistry.archetypes.length = 0 ∧
    ArchetypeRegistry.emptyRegistry.find_or_create_archetype_adding_component 0 compA =
      Except.error () := by
  exact ⟨rfl, rfl⟩

/-- Claim C6: the invariant `entity_count <= capacity` is claimed to be preserved by every archetype operation, `dealloc` and capacity resizes included. The evaluation below shows the code violates this: on a well-formed archetype with one live row, both `dealloc` and a resize whose target reaches `MAX_ENTITIES_PER_ARCHETYPE` set `capacity` to 0 while leaving `entity_count` at 1. -/
theorem dealloc_breaks_count_le_capacity :
    archOne.wf ∧
    ¬ archOne.dealloc.entity_count ≤ archOne.dealloc.capacity ∧
    ¬ (archOne.resize_capacity (MAX_ENTITIES_PER_ARCHETYPE : Int)).entity_count ≤
        (archOne.resize_capacity (MAX_ENTITIES_PER_ARCHETYPE : Int)).capacity := by
  refine ⟨?_, by decide, by decide⟩
  unfold Archetype.wf
  decide

/-- Claim C3, counterexample: on a full archetype of capacity 2 the push grows the capacity by the current capacity (to 4), not by `max(DEFAULT_ARCHETYPE_ALLOCATION_SIZE, capacity) = 64` as claimed. -/
theorem push_growth_is_not_max_of_default_and_capacity :
    archFullTwo.wf ∧
    archFullTwo.entity_count = archFullTwo.capacity ∧
    (archFullTwo.push_entity_unchecked ⟨9⟩ archFullTwo.descriptor.components
        groupSingleA).1.capacity = 4 ∧
    ¬ (archFullTwo.push_entity_unchecked ⟨9⟩ archFullTwo.descriptor.components
        groupSingleA).1.capacity =
      archFullTwo.capacity + max DEFAULT_ARCHETYPE_ALLOCATION_SIZE archFullTwo.capacity := by
  refine ⟨?_, by decide, by decide, by decide⟩
  unfold Archetype.wf
  decide

end ShardECS
